import Mathlib

/-!
# Pumpe: scheduling and actuation engine of the irrigation controller

A shallow embedding of `src/main.cpp`: the virtual clock, the four pump
channels, the program list, the tank level, and the operations that act on
them (`startPumpTimed`, `stopPump`, `runProgram`, the body of `loop`, the
setters, `calculateTankEmptyDate`, and the toggle, calibration and tank HTTP
handlers).

Modelling conventions.

* `time_t` values are unbounded integers (`Int`).
* `int` arithmetic that can overflow (`prog.interval * 7 * 24 * 3600`) wraps
  to 32 bits, see `wrap32`.
* `unsigned long` (the `millis()` counter) is a natural number below `2 ^ 32`;
  subtraction wraps, see `u32sub`.
* `float` values are `Flt`: a rational (the value of a finite binary32
  number), or one of the special values `+inf`, `-inf`, `NaN`. Every `float`
  operation rounds its exact result to binary32 (`Flt.round32`: nearest, ties
  to even, with overflow to infinity and gradual underflow); an operation
  with a `double` literal is done in binary64 and then narrowed
  (`Flt.divDouble`). Division by zero yields the special values as in
  IEEE 754. The sign of a zero is not kept.
* `String` is a list of characters.
* `saveConfig()` only reads the state and writes a file; it is not modelled.
  `Serial.println` is not modelled either.
* GPIO outputs are the fields `pumpPin` (four pump pins) and `led`.
* Library calls are taken as given: `localtime` under `TZ=UTC0` is UTC
  arithmetic, `stringToUnixTime` (`sscanf`, `mktime`) enters as its result,
  and the `localtime` rendering of the forecast timestamp is not modelled.
-/

namespace Pumpe

/-! ## Numbers -/

/-- Values of the C++ type `float`: a finite value, `+inf`, `-inf` or `NaN`. -/
inductive Flt where
  | fin (q : ℚ)
  | pinf
  | ninf
  | nan
  deriving DecidableEq

namespace Flt

/-- Rounding of a rational to the nearest integer, ties to the even one. -/
def roundHalfEven (x : ℚ) : Int :=
  if x - ⌊x⌋ < 1 / 2 then ⌊x⌋
  else if 1 / 2 < x - ⌊x⌋ then ⌊x⌋ + 1
  else if ⌊x⌋ % 2 = 0 then ⌊x⌋ else ⌊x⌋ + 1

/-- IEEE 754 round-to-nearest-even of a rational into the binary format with
`prec` significand bits, least exponent `emin` of the last place and overflow
threshold `2 ^ emax`: the result is a multiple of `2 ^ e`, where `2 ^ e` is the
unit in the last place at the magnitude of `q`. -/
def roundTo (prec : Nat) (emin emax : Int) (q : ℚ) : Flt :=
  if q = 0 then fin 0
  else
    let e := max (Int.log 2 |q| - ((prec : Int) - 1)) emin
    let r := (roundHalfEven (q / 2 ^ e) : ℚ) * 2 ^ e
    if (2 : ℚ) ^ emax ≤ |r| then (if 0 < q then pinf else ninf) else fin r

/-- Rounding to binary32, the format of `float`. -/
def round32 (q : ℚ) : Flt := roundTo 24 (-149) 128 q

/-- Rounding to binary64, the format of `double`. -/
def round64 (q : ℚ) : Flt := roundTo 53 (-1074) 1024 q

/-- The conversion `double -> float`. -/
def narrow : Flt → Flt
  | fin q => round32 q
  | x => x

/-- The rational `q` is a binary32 number: `m * 2 ^ e` with a significand of
less than 24 bits and `e >= -149`. -/
def Rep32 (q : ℚ) : Prop :=
  ∃ m e : Int, |m| < 2 ^ 24 ∧ -149 ≤ e ∧ q = (m : ℚ) * 2 ^ e

/-- The positive numbers `x` and `y` agree up to the factor `c`:
`x / c <= y <= c * x`. -/
def Near (c x y : ℚ) : Prop := 0 < x ∧ 0 < y ∧ x ≤ c * y ∧ y ≤ c * x

/-- The conversions `int -> float` and `unsigned long -> float`. -/
def ofInt (n : Int) : Flt := round32 n

/-- The comparison `x < 0`; false for `NaN`. -/
def ltZero : Flt → Bool
  | fin q => decide (q < 0)
  | ninf => true
  | _ => false

/-- The comparison `x <= 0`; false for `NaN`. -/
def leZero : Flt → Bool
  | fin q => decide (q ≤ 0)
  | ninf => true
  | _ => false

/-- The comparison `x > 0`; false for `NaN`. -/
def gtZero : Flt → Bool
  | fin q => decide (0 < q)
  | pinf => true
  | _ => false

/-- Subtraction `x - y` of `float` values: the exact difference rounded to
binary32. -/
def sub : Flt → Flt → Flt
  | nan, _ => nan
  | _, nan => nan
  | fin a, fin b => round32 (a - b)
  | fin _, pinf => ninf
  | fin _, ninf => pinf
  | pinf, pinf => nan
  | pinf, _ => pinf
  | ninf, ninf => nan
  | ninf, _ => ninf

/-- Division `x / y` of `float` values: the exact quotient rounded to
binary32. A zero divisor is the positive zero (the only zero the modelled code
divides by), so `x / 0` is `+inf`, `-inf` or `NaN` by the sign of `x`. -/
def div : Flt → Flt → Flt
  | nan, _ => nan
  | _, nan => nan
  | fin a, fin b =>
    if b = 0 then (if a = 0 then nan else if 0 < a then pinf else ninf)
    else round32 (a / b)
  | fin _, pinf => fin 0
  | fin _, ninf => fin 0
  | pinf, fin b => if 0 ≤ b then pinf else ninf
  | ninf, fin b => if 0 ≤ b then ninf else pinf
  | pinf, _ => nan
  | ninf, _ => nan

/-- Division `x / y` of two `float` values in `double` arithmetic, as in
`x / 1000.0`, with the quotient assigned to a `float`: the quotient is rounded
to binary64 and then narrowed to binary32. -/
def divDouble : Flt → Flt → Flt
  | nan, _ => nan
  | _, nan => nan
  | fin a, fin b =>
    if b = 0 then (if a = 0 then nan else if 0 < a then pinf else ninf)
    else narrow (round64 (a / b))
  | fin _, pinf => fin 0
  | fin _, ninf => fin 0
  | pinf, fin b => if 0 ≤ b then pinf else ninf
  | ninf, fin b => if 0 ≤ b then ninf else pinf
  | pinf, _ => nan
  | ninf, _ => nan

/-- C `round`: nearest integer, halves away from zero. -/
def cRound (q : ℚ) : Int :=
  if 0 ≤ q then ⌊q + 1 / 2⌋ else -⌊-q + 1 / 2⌋

/-- The conversion `(time_t)round(x)`. For a non-finite `x` the conversion is
undefined in C++; the model fixes the result `0` there. -/
def toTimeT : Flt → Int
  | fin q => cRound q
  | _ => 0

end Flt

/-- Wrap an integer to the range of a 32-bit `int`. -/
def wrap32 (x : Int) : Int := (x + 2147483648) % 4294967296 - 2147483648

/-- Subtraction of `unsigned long` (32 bit) values. -/
def u32sub (a b : Nat) : Nat := (a % 4294967296 + 4294967296 - b % 4294967296) % 4294967296

/-- Addition of `unsigned long` (32 bit) values. -/
def u32add (a b : Nat) : Nat := (a + b) % 4294967296

/-! ## Data model -/

/-- An Arduino `String`. -/
abbrev Str := List Char

/-- The C++ `struct Program`. -/
structure Program where
  days : Str
  interval : Int
  time : Str
  amount : Int
  active : Bool
  pumps : Fin 4 → Bool
  lastRun : Int

/-- The global variables of `main.cpp` together with the GPIO outputs.
`runLog` is a ghost trace: the positions (in `programs`) of the programs for
which `loop` called `runProgram`, in call order. -/
structure State where
  currentTankLevel : Flt
  pumpStatus : Fin 4 → Bool
  pumpFlowRate : Fin 4 → Flt
  calibrationStartTime : Fin 4 → Nat
  calibrationRunning : Fin 4 → Bool
  programs : List Program
  currentUnixTime : Int
  lastUpdateMillis : Nat
  pumpRunEnd : Fin 4 → Int
  lastProgramCheck : Int
  pumpPin : Fin 4 → Bool
  led : Bool
  runLog : List Nat

/-- The array index denoted by a C `int` that passed the range check `0..3`. -/
def chan (i : Int) : Fin 4 := ⟨i.toNat % 4, Nat.mod_lt _ (by decide)⟩

/-! ## Channel operations -/

/-- The loop `for(k=0;k<4;k++) if(pumpStatus[k]) anyOn=true`. -/
def anyOn (st : Fin 4 → Bool) : Bool := st 0 || st 1 || st 2 || st 3

/-- `startPumpTimed(i, durationSec)`, lines 856-876. -/
def startPumpTimed (s : State) (i : Int) (durationSec : Flt) : State :=
  if i < 0 ∨ i > 3 ∨ durationSec.leZero = true then s
  else
    let endTime := s.currentUnixTime + durationSec.toTimeT
    { s with
      pumpStatus := Function.update s.pumpStatus (chan i) true
      pumpPin := Function.update s.pumpPin (chan i) true
      led := true
      pumpRunEnd :=
        if endTime > s.pumpRunEnd (chan i) then Function.update s.pumpRunEnd (chan i) endTime
        else s.pumpRunEnd }

/-- `stopPump(i)`, lines 879-899. -/
def stopPump (s : State) (i : Int) : State :=
  if i < 0 ∨ i > 3 then s
  else
    let st := Function.update s.pumpStatus (chan i) false
    { s with
      pumpStatus := st
      pumpRunEnd := Function.update s.pumpRunEnd (chan i) 0
      pumpPin := Function.update s.pumpPin (chan i) false
      led := if anyOn st then s.led else false }

/-! ## Tank -/

/-- The tank update of `runProgram`, lines 915-916:
`currentTankLevel -= prog.amount; if(currentTankLevel<0) currentTankLevel=0;`. -/
def consume (level : Flt) (amount : Int) : Flt :=
  let l := Flt.sub level (Flt.ofInt amount)
  if l.ltZero then Flt.fin 0 else l

/-- The `/update_tank` handler with a present `level` argument whose
`toFloat()` value is `newLevel`, lines 1003-1007. -/
def updateTank (s : State) (newLevel : Flt) : State :=
  { s with currentTankLevel := if newLevel.ltZero then Flt.fin 0 else newLevel }

/-! ## Running a program -/

/-- The run time `prog.amount / pumpFlowRate[i]` computed at line 912. -/
def durationSeconds (s : State) (prog : Program) (i : Int) : Flt :=
  Flt.div (Flt.ofInt prog.amount) (s.pumpFlowRate (chan i))

/-- One iteration of the `for` loop of `runProgram`, lines 907-921. -/
def runPump (prog : Program) (s : State) (i : Int) : State :=
  if prog.pumps (chan i) then
    if (s.pumpFlowRate (chan i)).leZero then s
    else
      let sec := durationSeconds s prog i
      startPumpTimed { s with currentTankLevel := consume s.currentTankLevel prog.amount } i sec
  else s

/-- `runProgram(prog)`, lines 902-925: the new globals and the updated program. -/
def runProgram (s : State) (prog : Program) : State × Program :=
  let s1 := [0, 1, 2, 3].foldl (runPump prog) s
  (s1, { prog with lastRun := s1.currentUnixTime })

/-! ## Weekday and time-of-day matching -/

/-- C `strstr` on the text that starts at offset `k` of the searched string:
the offset of the first occurrence of `pat`, or `-1`. -/
def strstr : Str → Str → Nat → Int
  | [], pat, k => if pat.isPrefixOf [] then k else -1
  | c :: cs, pat, k => if pat.isPrefixOf (c :: cs) then k else strstr cs pat (k + 1)

/-- Arduino `String::indexOf(const String&)`: `-1` on an empty receiver,
otherwise the result of `strstr`. -/
def indexOf (s pat : Str) : Int :=
  if 0 ≥ s.length then -1 else strstr s pat 0

/-- `isDayInList(days, dayShort)`, lines 931-935. -/
def isDayInList (days dayShort : Str) : Bool :=
  let withComma := days ++ [',']
  let look := dayShort ++ [',']
  decide (indexOf withComma look ≥ 0)

/-- `getTimeComponents(t, wday, hour, minute)`, lines 940-945, with `localtime`
under `TZ=UTC0` (set in `setup`): weekday (0 = Sunday; 1970-01-01 was a
Thursday), hour and minute of the UTC time `t`. -/
def getTimeComponents (t : Int) : Nat × Nat × Nat :=
  let days := t / 86400
  let secs := t % 86400
  (((days + 4) % 7).toNat, (secs / 3600).toNat, (secs % 3600 / 60).toNat)

/-- The table `dayMap` of `loop`, line 1238. -/
def dayMap : Nat → Str
  | 0 => ['S', 'o']
  | 1 => ['M', 'o']
  | 2 => ['D', 'i']
  | 3 => ['M', 'i']
  | 4 => ['D', 'o']
  | 5 => ['F', 'r']
  | _ => ['S', 'a']

/-- The format `%02d` for a value below 100. -/
def fmt02 (n : Nat) : Str := [Nat.digitChar (n / 10), Nat.digitChar (n % 10)]

/-- The buffer `hmBuf` of `loop`, line 1242: `snprintf("%02d:%02d", hour, minute)`. -/
def hmBuf (hour minute : Nat) : Str := fmt02 hour ++ [':'] ++ fmt02 minute

/-- The value `intervalSec = prog.interval * 7 * 24 * 3600` of line 1249,
computed in 32-bit `int` arithmetic. -/
def intervalSec (prog : Program) : Int :=
  wrap32 (wrap32 (wrap32 (prog.interval * 7) * 24) * 3600)

/-- The decision of the loop body, lines 1246-1253: `true` when control
reaches `runProgram(prog)`, `false` when one of the `continue`s is taken or
the time string differs. -/
def shouldRun (now : Int) (currentDay hm : Str) (prog : Program) : Bool :=
  if !prog.active then false
  else if !isDayInList prog.days currentDay then false
  else if prog.lastRun != 0 && decide (now < prog.lastRun + intervalSec prog) then false
  else decide (hm = prog.time)

/-- The loop `for(auto &prog : programs)` of lines 1245-1256, from position
`k` on: the new globals and the updated programs. -/
def checkPrograms (currentDay hm : Str) : State → Nat → List Program → State × List Program
  | s, _, [] => (s, [])
  | s, k, prog :: rest =>
    if shouldRun s.currentUnixTime currentDay hm prog then
      let r := runProgram { s with runLog := s.runLog ++ [k] } prog
      let r2 := checkPrograms currentDay hm r.1 (k + 1) rest
      (r2.1, r.2 :: r2.2)
    else
      let r2 := checkPrograms currentDay hm s (k + 1) rest
      (r2.1, prog :: r2.2)

/-! ## The body of `loop` -/

/-- The clock step, lines 1215-1219, with `nowMs` the value of `millis()`. -/
def clockStep (s : State) (nowMs : Nat) : State :=
  if u32sub nowMs s.lastUpdateMillis ≥ 1000 then
    { s with
      lastUpdateMillis := u32add s.lastUpdateMillis 1000
      currentUnixTime := s.currentUnixTime + 1 }
  else s

/-- One iteration of the deadline loop, lines 1223-1228. -/
def deadlineStep (s : State) (i : Int) : State :=
  if s.pumpStatus (chan i) = true ∧ s.pumpRunEnd (chan i) > 0 then
    if s.currentUnixTime ≥ s.pumpRunEnd (chan i) then stopPump s i else s
  else s

/-- The deadline loop, lines 1222-1229. -/
def deadlineCheck (s : State) : State := [0, 1, 2, 3].foldl deadlineStep s

/-- The minute-wise program check, lines 1232-1257. -/
def programCheck (s : State) : State :=
  let nowMin := Int.tdiv s.currentUnixTime 60
  if nowMin ≠ s.lastProgramCheck then
    let s1 := { s with lastProgramCheck := nowMin }
    let tc := getTimeComponents s.currentUnixTime
    let r := checkPrograms (dayMap tc.1) (hmBuf tc.2.1 tc.2.2) s1 0 s.programs
    { r.1 with programs := r.2 }
  else s

/-- The body of `loop()`, lines 1214-1257, after the HTTP handling; `nowMs`
is the value of `millis()`. -/
def loop (s : State) (nowMs : Nat) : State :=
  programCheck (deadlineCheck (clockStep s nowMs))

/-! ## Calibration handlers -/

/-- `updatePumpFlowRate(p, rate)`, lines 358-361. -/
def updatePumpFlowRate (s : State) (p : Int) (rate : Flt) : State :=
  { s with pumpFlowRate := Function.update s.pumpFlowRate (chan p) rate }

/-- The `/start_calibration` handler, lines 1052-1071, with a present `pump`
argument of value `p` and `millis()` reading `nowMs`: the new globals and the
HTTP status. -/
def startCalibration (s : State) (p : Int) (nowMs : Nat) : State × Nat :=
  if p < 0 ∨ p > 3 then (s, 400)
  else
    ({ s with
       calibrationStartTime := Function.update s.calibrationStartTime (chan p) nowMs
       calibrationRunning := Function.update s.calibrationRunning (chan p) true
       pumpPin := Function.update s.pumpPin (chan p) true
       pumpStatus := Function.update s.pumpStatus (chan p) true }, 200)

/-- The `/stop_calibration` handler, lines 1079-1108, with a present `pump`
argument of value `p` and `millis()` reading `nowMs`: the new globals and the
HTTP status. -/
def stopCalibration (s : State) (p : Int) (nowMs : Nat) : State × Nat :=
  if p < 0 ∨ p > 3 then (s, 400)
  else if !s.calibrationRunning (chan p) then (s, 400)
  else
    let duration := u32sub nowMs (s.calibrationStartTime (chan p))
    let s1 := { s with
      calibrationRunning := Function.update s.calibrationRunning (chan p) false
      pumpPin := Function.update s.pumpPin (chan p) false
      pumpStatus := Function.update s.pumpStatus (chan p) false }
    let durationSec := Flt.divDouble (Flt.ofInt (duration : Int)) (Flt.fin 1000)
    let rate := Flt.divDouble (Flt.fin 100) durationSec
    (updatePumpFlowRate s1 p rate, 200)

/-! ## Tank forecast -/

/-- Addition `x + y` of `float` values: the exact sum rounded to binary32. -/
def Flt.add : Flt → Flt → Flt
  | Flt.nan, _ => Flt.nan
  | _, Flt.nan => Flt.nan
  | Flt.fin a, Flt.fin b => Flt.round32 (a + b)
  | Flt.fin _, Flt.pinf => Flt.pinf
  | Flt.fin _, Flt.ninf => Flt.ninf
  | Flt.pinf, Flt.ninf => Flt.nan
  | Flt.pinf, _ => Flt.pinf
  | Flt.ninf, Flt.pinf => Flt.nan
  | Flt.ninf, _ => Flt.ninf

/-- Multiplication `x * y` of `float` values: the exact product rounded to
binary32. -/
def Flt.mul : Flt → Flt → Flt
  | Flt.nan, _ => Flt.nan
  | _, Flt.nan => Flt.nan
  | Flt.fin a, Flt.fin b => Flt.round32 (a * b)
  | Flt.fin a, Flt.pinf => if a = 0 then Flt.nan else if 0 < a then Flt.pinf else Flt.ninf
  | Flt.fin a, Flt.ninf => if a = 0 then Flt.nan else if 0 < a then Flt.ninf else Flt.pinf
  | Flt.pinf, Flt.fin b => if b = 0 then Flt.nan else if 0 < b then Flt.pinf else Flt.ninf
  | Flt.ninf, Flt.fin b => if b = 0 then Flt.nan else if 0 < b then Flt.ninf else Flt.pinf
  | Flt.pinf, Flt.pinf => Flt.pinf
  | Flt.pinf, Flt.ninf => Flt.ninf
  | Flt.ninf, Flt.pinf => Flt.ninf
  | Flt.ninf, Flt.ninf => Flt.pinf

/-- The cast `(time_t)x` of a `float`: truncation toward zero. For a
non-finite `x` the cast is undefined in C++; the model fixes the result `0`
there. -/
def Flt.truncTimeT : Flt → Int
  | Flt.fin q => if 0 ≤ q then ⌊q⌋ else ⌈q⌉
  | _ => 0

/-- The number of commas in a string: what the `while` loop of the lambda
`countDays` counts, one `indexOf(',', start)` hit per comma. -/
def countCommas : Str → Int
  | [] => 0
  | c :: cs => if c = ',' then countCommas cs + 1 else countCommas cs

/-- The lambda `countDays` of `calculateTankEmptyDate`, lines 116-126. -/
def countDays (days : Str) : Int := countCommas (days ++ [','])

/-- One iteration of the loop over `programs`, lines 129-134; the product
`dayCount * pr.amount` is a 32-bit `int`. -/
def usageStep (usagePerWeek : Flt) (pr : Program) : Flt :=
  if !pr.active then usagePerWeek
  else Flt.add usagePerWeek (Flt.ofInt (wrap32 (countDays pr.days * pr.amount)))

/-- The value of `usagePerWeek` after the loop of lines 129-134. -/
def usagePerWeek (ps : List Program) : Flt := ps.foldl usageStep (Flt.fin 0)

/-- Lines 136-145 of `calculateTankEmptyDate`: `none` for the empty result,
otherwise the timestamp `emptySec`. -/
def tankEmptyAt (nowSec : Int) (level usage : Flt) : Option Int :=
  if usage.leZero then none
  else
    let weeks := Flt.div level usage
    let deltaSec := Flt.truncTimeT
      (Flt.mul (Flt.mul (Flt.mul weeks (Flt.ofInt 7)) (Flt.ofInt 24)) (Flt.ofInt 3600))
    some (nowSec + deltaSec)

/-- `calculateTankEmptyDate()`, lines 112-156. The result is `none` for the
empty string and otherwise the timestamp `emptySec`, which the function
returns rendered by `localtime` as `dd.mm.yyyy hh:mm` (lines 147-155; the
rendering is not modelled). -/
def calculateTankEmptyDate (s : State) : Option Int :=
  tankEmptyAt s.currentUnixTime s.currentTankLevel (usagePerWeek s.programs)

/-! ## Setters and the remaining handlers -/

/-- `setCurrentDateTime(dt)`, lines 311-315, with `t` the value of
`stringToUnixTime(dt)` and `nowMs` the value of `millis()`. -/
def setCurrentDateTime (s : State) (t : Int) (nowMs : Nat) : State :=
  { s with currentUnixTime := t, lastUpdateMillis := nowMs }

/-- `togglePumpStatus(idx)`, lines 317-338. -/
def togglePumpStatus (s : State) (idx : Int) : State :=
  if idx < 0 ∨ idx > 3 then s
  else
    let st := Function.update s.pumpStatus (chan idx) (!s.pumpStatus (chan idx))
    { s with
      pumpStatus := st
      pumpPin := Function.update s.pumpPin (chan idx) (st (chan idx))
      led := anyOn st }

/-- The `/toggle_pump` handler, lines 1029-1043, with a present `index`
argument of value `idx`: the new globals and the HTTP status. -/
def togglePump (s : State) (idx : Int) : State × Nat :=
  if idx < 0 ∨ idx > 3 then (s, 400) else (togglePumpStatus s idx, 200)

/-- `updateProgramActiveState(idx, newState)`, lines 340-344. -/
def updateProgramActiveState (s : State) (idx : Int) (newState : Bool) : State :=
  if idx < 0 ∨ idx ≥ (s.programs.length : Int) then s
  else
    match s.programs[idx.toNat]? with
    | some p => { s with programs := s.programs.set idx.toNat { p with active := newState } }
    | none => s

/-- `deleteProgram(idx)`, lines 351-356. -/
def deleteProgram (s : State) (idx : Int) : State :=
  if idx ≥ 0 ∧ idx < (s.programs.length : Int) then
    { s with programs := s.programs.eraseIdx idx.toNat }
  else s

/-- A run of `loop` iterations, one per `millis()` reading of the list. -/
def ticks (s : State) (readings : List Nat) : State := readings.foldl loop s

/-! ## The evaluation pass as a fold -/

/-- The decision of the loop body for `prog` in an evaluation pass at the
instant `now`: `currentDay` and `hmBuf` are computed from `now` as `loop` does
(lines 1235-1242), and the `continue` chain of lines 1246-1253 decides. -/
def fires (now : Int) (prog : Program) : Bool :=
  shouldRun now (dayMap (getTimeComponents now).1)
    (hmBuf (getTimeComponents now).2.1 (getTimeComponents now).2.2) prog

/-- Firing of the program at position `kp.1`: the call is recorded in the
ghost trace and `runProgram` acts on the globals. -/
def fireStep (st : State) (kp : Nat × Program) : State :=
  (runProgram { st with runLog := st.runLog ++ [kp.1] } kp.2).1

/-- The positions and programs, from position `k` on, that satisfy `fires`. -/
def firedFrom (now : Int) (k : Nat) (ps : List Program) : List (Nat × Program) :=
  (List.enumFrom k ps).filter (fun kp => fires now kp.2)

/-- The effect of an evaluation pass on one program. -/
def markRun (now : Int) (prog : Program) : Program :=
  if fires now prog then { prog with lastRun := now } else prog

/-- The number of channels selected by a program. -/
def selectedCount (prog : Program) : Nat :=
  ((List.finRange 4).filter (fun i => prog.pumps i)).length

/-! ## Example data -/

/-- A program for Thursdays at 00:00 with no channel selected. -/
def thursdayProgram (w D : Int) : Program :=
  { days := ['D', 'o'], interval := w, time := ['0', '0', ':', '0', '0'], amount := 100,
    active := true, pumps := fun _ => false, lastRun := D }

/-- A state with all channels off and uncalibrated, a tank of 1000 ml, the
program list `ps` and the clock at `now`. -/
def idleState (ps : List Program) (now : Int) : State :=
  { currentTankLevel := Flt.fin 1000, pumpStatus := fun _ => false,
    pumpFlowRate := fun _ => Flt.fin 0, calibrationStartTime := fun _ => 0,
    calibrationRunning := fun _ => false, programs := ps, currentUnixTime := now,
    lastUpdateMillis := 0, pumpRunEnd := fun _ => 0, lastProgramCheck := 0,
    pumpPin := fun _ => false, led := false, runLog := [] }

/-- A daily 00:00 program of `a` ml that selects exactly channel `c`. -/
def channelProgram (c : Fin 4) (a : Int) : Program :=
  { days := ['S', 'o', ',', 'M', 'o', ',', 'D', 'i', ',', 'M', 'i', ',', 'D', 'o', ',', 'F', 'r',
      ',', 'S', 'a'],
    interval := 1, time := ['0', '0', ':', '0', '0'], amount := a, active := true,
    pumps := fun i => decide (i = c), lastRun := 0 }

/-- A daily 00:00 program of `a` ml that selects the channels 0 and 1. -/
def twoChannelProgram (a : Int) : Program :=
  { channelProgram 0 a with pumps := fun i => decide (i = 0 ∨ i = 1) }

/-- A state with all channels off and calibrated to 5 ml/s, a tank of `L` ml,
no programs and the clock at 100. -/
def calibratedState (L : ℚ) : State :=
  { idleState [] 100 with currentTankLevel := Flt.fin L, pumpFlowRate := fun _ => Flt.fin 5 }

/-- A state in which channel 0 has the flow rate 5 ml/s and is calibrating
since the `millis()` reading 5000. -/
def calibratingState : State :=
  { idleState [] 100 with
    pumpFlowRate := Function.update (fun _ => Flt.fin 0) 0 (Flt.fin 5)
    calibrationStartTime := Function.update (fun _ => 0) 0 5000
    calibrationRunning := Function.update (fun _ => false) 0 true
    pumpStatus := Function.update (fun _ => false) 0 true
    pumpPin := Function.update (fun _ => false) 0 true }

/-- The seven weekday codes of `dayMap`. -/
def dayCodes : List Str :=
  [['S', 'o'], ['M', 'o'], ['D', 'i'], ['M', 'i'], ['D', 'o'], ['F', 'r'], ['S', 'a']]

/-- A list of strings joined with commas, as the page script builds the
`days` argument. -/
def joinDays : List Str → Str
  | [] => []
  | [c] => c
  | c :: d :: rest => c ++ [','] ++ joinDays (d :: rest)

/-- A 00:00 program of `a` ml on channel 0 with the weekday string `days`. -/
def weekProgram (days : Str) (a : Int) (active : Bool) : Program :=
  { days := days, interval := 1, time := ['0', '0', ':', '0', '0'], amount := a,
    active := active, pumps := fun i => decide (i = 0), lastRun := 0 }

/-- The idle state with a tank of `L` ml. -/
def tankState (L : ℚ) (ps : List Program) (now : Int) : State :=
  { idleState ps now with currentTankLevel := Flt.fin L }

/-! ## The firing condition in the words of the specification -/

/-- The code of the weekday `wd`, 0 = Sunday: So, Mo, Di, Mi, Do, Fr, Sa. -/
def weekdayCode (wd : Nat) : Str := dayCodes.getD wd []

/-- A decimal digit as a character. -/
def digit (n : Nat) : Char := Char.ofNat (48 + n)

/-- The text `HH:MM` of the time of day `hour:minute`. -/
def clockText (hour minute : Nat) : Str :=
  [digit (hour / 10), digit (hour % 10), ':', digit (minute / 10), digit (minute % 10)]

/-- The interval cool-down window of the specification: the program has run
before (`lastRun` is not 0, the value that stands for "never") and `now` is
earlier than `lastRun + intervalWeeks * 7 * 86400`, in unbounded integers. -/
def inCoolDownWindow (now : Int) (prog : Program) : Bool :=
  prog.lastRun != 0 && decide (now < prog.lastRun + prog.interval * 7 * 86400)

/-! ## The indicator -/

/-- The indicator invariant of the specification: the LED output equals the
logical OR of the four channels' on-bits. -/
def indicatorOk (s : State) : Prop := s.led = anyOn s.pumpStatus

/-- The state `calibratingState` with the LED on, as it is after a program or
a manual toggle lit it. -/
def calibratingLit : State := { calibratingState with led := true }

/-! ## Binary rounding -/

namespace Flt

theorem roundHalfEven_intCast (n : Int) : roundHalfEven (n : ℚ) = n := by
  unfold roundHalfEven
  simp

theorem roundHalfEven_abs_sub_le (x : ℚ) : |((roundHalfEven x : Int) : ℚ) - x| ≤ 1 / 2 := by
  have h1 := Int.floor_le x
  have h2 := Int.lt_floor_add_one x
  unfold roundHalfEven
  split_ifs with a b c
  · rw [abs_le]; constructor <;> linarith
  · rw [abs_le]; push_cast; constructor <;> linarith
  · rw [abs_le]; constructor <;> linarith
  · rw [abs_le]; push_cast; constructor <;> linarith

theorem roundHalfEven_of_lt (x : ℚ) (m : Int) (h1 : (m : ℚ) - 1 / 2 < x)
    (h2 : x < (m : ℚ) + 1 / 2) : roundHalfEven x = m := by
  have hf1 := Int.floor_le x
  have hf2 := Int.lt_floor_add_one x
  by_cases hm : (m : ℚ) ≤ x
  · have hfl : ⌊x⌋ = m := by
      rw [Int.floor_eq_iff]
      constructor
      · exact hm
      · linarith
    unfold roundHalfEven
    rw [hfl, if_pos (by linarith)]
  · have hfl : ⌊x⌋ = m - 1 := by
      rw [Int.floor_eq_iff]
      push_cast
      constructor
      · linarith
      · linarith
    unfold roundHalfEven
    rw [hfl]
    push_cast
    rw [if_neg (by linarith), if_pos (by linarith)]
    ring

theorem roundHalfEven_tie_odd (f : Int) (h : f % 2 = 1) :
    roundHalfEven ((f : ℚ) + 1 / 2) = f + 1 := by
  have hfl : ⌊(f : ℚ) + 1 / 2⌋ = f := by
    rw [Int.floor_eq_iff]
    constructor <;> linarith
  unfold roundHalfEven
  rw [hfl, if_neg (by linarith), if_neg (by linarith), if_neg (by omega)]

theorem roundHalfEven_nonpos (x : ℚ) (h : x ≤ 0) : roundHalfEven x ≤ 0 := by
  by_contra hc
  have h1 : (1 : ℚ) ≤ ((roundHalfEven x : Int) : ℚ) := by
    have : (1 : Int) ≤ roundHalfEven x := by omega
    exact_mod_cast this
  have h2 := roundHalfEven_abs_sub_le x
  rw [abs_le] at h2
  linarith [h2.2]

theorem roundHalfEven_nonneg (x : ℚ) (h : 0 ≤ x) : 0 ≤ roundHalfEven x := by
  by_contra hc
  have h1 : ((roundHalfEven x : Int) : ℚ) ≤ -1 := by
    have : roundHalfEven x ≤ -1 := by omega
    exact_mod_cast this
  have h2 := roundHalfEven_abs_sub_le x
  rw [abs_le] at h2
  linarith [h2.1]

theorem log_two_eq (x : ℚ) (k : Int) (hx : 0 < x) (h1 : (2 : ℚ) ^ k ≤ x)
    (h2 : x < (2 : ℚ) ^ (k + 1)) : Int.log 2 x = k := by
  have a : k ≤ Int.log 2 x := by
    rw [← Int.zpow_le_iff_le_log (by norm_num) hx]
    simpa using h1
  have b : Int.log 2 x < k + 1 := by
    rw [← Int.lt_zpow_iff_log_lt (by norm_num) hx]
    simpa using h2
  omega

theorem log_two_spec (x : ℚ) (hx : 0 < x) :
    (2 : ℚ) ^ Int.log 2 x ≤ x ∧ x < (2 : ℚ) ^ (Int.log 2 x + 1) := by
  have a := Int.zpow_log_le_self (b := 2) (by norm_num) hx
  have b := Int.lt_zpow_succ_log_self (b := 2) (by norm_num) x
  constructor
  · simpa using a
  · simpa using b


theorem roundTo_exact (prec : Nat) (emin emax : Int) (m e : Int) (hm : |m| < 2 ^ prec)
    (he : emin ≤ e) (hov : |(m : ℚ) * 2 ^ e| < (2 : ℚ) ^ emax) :
    roundTo prec emin emax ((m : ℚ) * 2 ^ e) = fin ((m : ℚ) * 2 ^ e) := by
  by_cases hq : (m : ℚ) * 2 ^ e = 0
  · unfold roundTo
    rw [if_pos hq, hq]
  · have hpos : 0 < |(m : ℚ) * 2 ^ e| := abs_pos.mpr hq
    have h2pos : (0 : ℚ) < 2 ^ e := by positivity
    have hlt : |(m : ℚ) * 2 ^ e| < (2 : ℚ) ^ ((prec : Int) + e) := by
      rw [abs_mul, abs_of_pos h2pos, zpow_add₀ (by norm_num), zpow_natCast]
      have : ((|m| : Int) : ℚ) < (2 : ℚ) ^ prec := by exact_mod_cast hm
      rw [← Int.cast_abs]
      exact mul_lt_mul_of_pos_right this h2pos
    have hlog : Int.log 2 |(m : ℚ) * 2 ^ e| < (prec : Int) + e := by
      rw [← Int.lt_zpow_iff_log_lt (by norm_num) hpos]
      simpa using hlt
    have hle : max (Int.log 2 |(m : ℚ) * 2 ^ e| - ((prec : Int) - 1)) emin ≤ e := by
      apply max_le
      · omega
      · exact he
    obtain ⟨n, hn⟩ := Int.eq_ofNat_of_zero_le (sub_nonneg.mpr hle)
    have hdiv : (m : ℚ) * 2 ^ e
        / 2 ^ (max (Int.log 2 |(m : ℚ) * 2 ^ e| - ((prec : Int) - 1)) emin)
        = ((m * 2 ^ n : Int) : ℚ) := by
      rw [mul_div_assoc, ← zpow_sub₀ (by norm_num), hn]
      push_cast
      rw [zpow_natCast]
    unfold roundTo
    rw [if_neg hq]
    simp only
    rw [hdiv, roundHalfEven_intCast, ← hdiv, div_mul_cancel₀ _ (by positivity),
      if_neg (not_le.mpr hov)]

theorem roundTo_int (prec : Nat) (emin emax : Int) (n : Int) (hn : |n| ≤ 2 ^ prec)
    (hmin : emin ≤ 0) (hov : |(n : ℚ)| < (2 : ℚ) ^ emax) (hp : 1 ≤ prec) :
    roundTo prec emin emax (n : ℚ) = fin (n : ℚ) := by
  by_cases hlt : |n| < 2 ^ prec
  · have h := roundTo_exact prec emin emax n 0 hlt hmin (by simpa using hov)
    simpa using h
  · have heq : |n| = 2 ^ prec := le_antisymm hn (not_lt.mp hlt)
    obtain ⟨p, rfl⟩ : ∃ p, prec = p + 1 := ⟨prec - 1, by omega⟩
    have hd : (2 : Int) ∣ n := by
      have : (2 : Int) ∣ |n| := by rw [heq]; exact Dvd.intro_left _ rfl
      exact (dvd_abs 2 n).mp this
    obtain ⟨c, rfl⟩ := hd
    have hc : |c| < 2 ^ (p + 1) := by
      rw [abs_mul, pow_succ] at heq
      have h2 : |(2 : Int)| = 2 := rfl
      rw [h2] at heq
      have hcp : |c| = 2 ^ p := by omega
      rw [hcp, pow_succ]
      have : (0 : Int) < 2 ^ p := by positivity
      omega
    have hval : ((2 * c : Int) : ℚ) = (c : ℚ) * 2 ^ (1 : Int) := by
      push_cast
      ring
    have h := roundTo_exact (p + 1) emin emax c 1 hc (by omega) (by rw [← hval]; exact hov)
    rw [← hval] at h
    exact h

theorem roundTo_eval (prec : Nat) (emin emax : Int) (q : ℚ) (k m : Int) (hq : q ≠ 0)
    (h1 : (2 : ℚ) ^ k ≤ |q|) (h2 : |q| < (2 : ℚ) ^ (k + 1))
    (hm : roundHalfEven (q / 2 ^ (max (k - ((prec : Int) - 1)) emin)) = m)
    (hov : |(m : ℚ) * 2 ^ (max (k - ((prec : Int) - 1)) emin)| < (2 : ℚ) ^ emax) :
    roundTo prec emin emax q = fin ((m : ℚ) * 2 ^ (max (k - ((prec : Int) - 1)) emin)) := by
  have hlog := log_two_eq |q| k (abs_pos.mpr hq) h1 h2
  unfold roundTo
  rw [if_neg hq]
  simp only
  rw [hlog, hm, if_neg (not_le.mpr hov)]

/-- Relative error of a rounding in the normal range: at most `2 ^ (-prec)`. -/
theorem roundTo_rel (prec : Nat) (emin emax : Int) (x : ℚ) (hp : 1 ≤ prec) (hx : 0 < x)
    (hlo : (2 : ℚ) ^ (emin + (prec : Int) - 1) ≤ x) (hhi : x ≤ (2 : ℚ) ^ (emax - 1)) :
    ∃ y : ℚ, roundTo prec emin emax x = fin y ∧
      x * (1 - 2 ^ (-(prec : Int))) ≤ y ∧ y ≤ x * (1 + 2 ^ (-(prec : Int))) := by
  have hx0 : x ≠ 0 := ne_of_gt hx
  have habs : |x| = x := abs_of_pos hx
  obtain ⟨hl1, hl2⟩ := log_two_spec x hx
  have hk : emin + (prec : Int) - 1 ≤ Int.log 2 x := by
    rw [← Int.zpow_le_iff_le_log (by norm_num) hx]
    simpa using hlo
  have he : max (Int.log 2 x - ((prec : Int) - 1)) emin = Int.log 2 x - ((prec : Int) - 1) :=
    max_eq_left (by omega)
  have h2pos : (0 : ℚ) < 2 ^ (Int.log 2 x - ((prec : Int) - 1)) := by positivity
  have herr := roundHalfEven_abs_sub_le (x / 2 ^ (Int.log 2 x - ((prec : Int) - 1)))
  rw [abs_le] at herr
  have hscale : (2 : ℚ) ^ (Int.log 2 x - ((prec : Int) - 1)) * (1 / 2)
      = 2 ^ (-(prec : Int)) * 2 ^ Int.log 2 x := by
    have e1 : Int.log 2 x - ((prec : Int) - 1) = Int.log 2 x + (-(prec : Int)) + 1 := by ring
    rw [e1, zpow_add₀ (by norm_num), zpow_add₀ (by norm_num), zpow_one]
    ring
  have hpp : (0 : ℚ) < 2 ^ (-(prec : Int)) := by positivity
  have hbound : (2 : ℚ) ^ (Int.log 2 x - ((prec : Int) - 1)) * (1 / 2)
      ≤ x * 2 ^ (-(prec : Int)) := by
    rw [hscale, mul_comm]
    exact mul_le_mul_of_nonneg_right hl1 hpp.le
  have hxe : x / 2 ^ (Int.log 2 x - ((prec : Int) - 1))
      * 2 ^ (Int.log 2 x - ((prec : Int) - 1)) = x := div_mul_cancel₀ _ (ne_of_gt h2pos)
  set y : ℚ := (roundHalfEven (x / 2 ^ (Int.log 2 x - ((prec : Int) - 1))) : ℚ)
    * 2 ^ (Int.log 2 x - ((prec : Int) - 1)) with hy
  have hy1 : x - 2 ^ (Int.log 2 x - ((prec : Int) - 1)) * (1 / 2) ≤ y := by
    have := mul_le_mul_of_nonneg_right herr.1 h2pos.le
    rw [sub_mul, hxe] at this
    linarith
  have hy2 : y ≤ x + 2 ^ (Int.log 2 x - ((prec : Int) - 1)) * (1 / 2) := by
    have := mul_le_mul_of_nonneg_right herr.2 h2pos.le
    rw [sub_mul, hxe] at this
    linarith
  have hlow : x * (1 - 2 ^ (-(prec : Int))) ≤ y := by linarith
  have hup : y ≤ x * (1 + 2 ^ (-(prec : Int))) := by linarith
  have hp1 : (2 : ℚ) ^ (-(prec : Int)) ≤ 1 := by
    apply zpow_le_one_of_nonpos₀ (by norm_num)
    omega
  have hynn : 0 ≤ y := le_trans (mul_nonneg hx.le (by linarith)) hlow
  have hov : |y| < (2 : ℚ) ^ emax := by
    rw [abs_of_nonneg hynn]
    have hpl : (2 : ℚ) ^ (-(prec : Int)) < 1 := by
      apply zpow_lt_one_of_neg₀ (by norm_num)
      omega
    have h3 : (2 : ℚ) ^ emax = 2 ^ (emax - 1) * 2 := by
      rw [← zpow_add_one₀ (by norm_num)]
      congr 1
      ring
    have h4 : (0 : ℚ) < 2 ^ (emax - 1) := by positivity
    rw [h3]
    nlinarith
  refine ⟨y, ?_, hlow, hup⟩
  unfold roundTo
  rw [if_neg hx0]
  simp only
  rw [habs, he, if_neg (not_le.mpr hov)]


theorem roundTo_sign (prec : Nat) (emin emax : Int) (q : ℚ) :
    (q ≤ 0 → roundTo prec emin emax q = ninf ∨ ∃ y : ℚ, y ≤ 0 ∧ roundTo prec emin emax q = fin y) ∧
    (0 ≤ q → roundTo prec emin emax q = pinf ∨ ∃ y : ℚ, 0 ≤ y ∧ roundTo prec emin emax q = fin y) := by
  have h2pos : ∀ e : Int, (0 : ℚ) < 2 ^ e := fun e => by positivity
  constructor
  · intro hq
    unfold roundTo
    by_cases h0 : q = 0
    · rw [if_pos h0]
      exact Or.inr ⟨0, le_refl _, rfl⟩
    · rw [if_neg h0]
      simp only
      split_ifs with a b
      · exact absurd b (not_lt.mpr hq)
      · exact Or.inl rfl
      · refine Or.inr ⟨_, ?_, rfl⟩
        apply mul_nonpos_of_nonpos_of_nonneg _ (h2pos _).le
        have := roundHalfEven_nonpos _ (div_nonpos_of_nonpos_of_nonneg hq (h2pos
          (max (Int.log 2 |q| - ((prec : Int) - 1)) emin)).le)
        exact_mod_cast this
  · intro hq
    unfold roundTo
    by_cases h0 : q = 0
    · rw [if_pos h0]
      exact Or.inr ⟨0, le_refl _, rfl⟩
    · rw [if_neg h0]
      simp only
      have hpos : 0 < q := lt_of_le_of_ne hq (Ne.symm h0)
      split_ifs with a
      · exact Or.inl rfl
      · refine Or.inr ⟨_, ?_, rfl⟩
        apply mul_nonneg _ (h2pos _).le
        have := roundHalfEven_nonneg _ (div_nonneg hq (h2pos
          (max (Int.log 2 |q| - ((prec : Int) - 1)) emin)).le)
        exact_mod_cast this

theorem round32_int (n : Int) (hn : |n| ≤ 16777216) : round32 (n : ℚ) = fin (n : ℚ) := by
  unfold round32
  apply roundTo_int 24 (-149) 128 n (by norm_num; exact hn) (by norm_num) _ (by norm_num)
  have h1 : |(n : ℚ)| ≤ 16777216 := by
    rw [← Int.cast_abs]
    exact_mod_cast hn
  have h2 : (16777216 : ℚ) < 2 ^ (128 : Int) := by norm_num
  exact lt_of_le_of_lt h1 h2

theorem round64_int (n : Int) (hn : |n| ≤ 16777216) : round64 (n : ℚ) = fin (n : ℚ) := by
  unfold round64
  apply roundTo_int 53 (-1074) 1024 n _ (by norm_num) _ (by norm_num)
  · exact le_trans hn (by norm_num)
  · have h1 : |(n : ℚ)| ≤ 16777216 := by
      rw [← Int.cast_abs]
      exact_mod_cast hn
    have h2 : (16777216 : ℚ) < 2 ^ (1024 : Int) := by
      have : (2 : ℚ) ^ (24 : Int) < 2 ^ (1024 : Int) :=
        zpow_lt_zpow_right₀ (by norm_num) (by norm_num)
      have e : (2 : ℚ) ^ (24 : Int) = 16777216 := by norm_num
      rw [e] at this
      exact this
    exact lt_of_le_of_lt h1 h2

theorem ofInt_exact (n : Int) (hn : |n| ≤ 16777216) : ofInt n = fin (n : ℚ) :=
  round32_int n hn

theorem round32_rep (q : ℚ) (h : Rep32 q) (hov : |q| < (2 : ℚ) ^ (128 : Int)) :
    round32 q = fin q := by
  obtain ⟨m, e, hm, he, rfl⟩ := h
  exact roundTo_exact 24 (-149) 128 m e hm he hov

theorem Rep32_int (n : Int) (hn : |n| ≤ 16777216) : Rep32 (n : ℚ) := by
  by_cases hlt : |n| < 16777216
  · exact ⟨n, 0, by norm_num; exact hlt, by norm_num, by simp⟩
  · have heq : |n| = 16777216 := le_antisymm hn (not_lt.mp hlt)
    rcases abs_eq (by norm_num : (0 : Int) ≤ 16777216) |>.mp heq with h | h
    · exact ⟨8388608, 1, by norm_num, by norm_num, by rw [h]; norm_num⟩
    · exact ⟨-8388608, 1, by norm_num, by norm_num, by rw [h]; norm_num⟩

theorem Rep32_zero : Rep32 0 := by
  have h := Rep32_int 0 (by norm_num)
  simpa using h

/-- Subtracting a whole number from a binary32 value of at most `2 ^ 24`
without passing zero gives a binary32 value again. -/
theorem Rep32_sub_int (L : ℚ) (a : Int) (hrep : Rep32 L) (hL : L ≤ 16777216)
    (ha : 0 ≤ a) (hle : (a : ℚ) ≤ L) : Rep32 (L - a) := by
  obtain ⟨m, e, hm, he, rfl⟩ := hrep
  have h2pos : (0 : ℚ) < 2 ^ e := by positivity
  have ha0 : (0 : ℚ) ≤ (a : ℚ) := by exact_mod_cast ha
  by_cases hneg : e ≤ 0
  · obtain ⟨n, hn⟩ := Int.eq_ofNat_of_zero_le (neg_nonneg.mpr hneg)
    have he2 : e = -(n : Int) := by omega
    have hpow : (2 : ℚ) ^ e * 2 ^ n = 1 := by
      rw [he2, zpow_neg, zpow_natCast]
      exact inv_mul_cancel₀ (by positivity)
    have hval : (m : ℚ) * 2 ^ e - a = ((m - a * 2 ^ n : Int) : ℚ) * 2 ^ e := by
      push_cast
      rw [sub_mul, mul_assoc, mul_comm ((2 : ℚ) ^ n) _, hpow, mul_one]
    have hnn : (0 : ℚ) ≤ ((m - a * 2 ^ n : Int) : ℚ) := by
      have : 0 ≤ ((m - a * 2 ^ n : Int) : ℚ) * 2 ^ e := by rw [← hval]; linarith
      exact nonneg_of_mul_nonneg_left this h2pos
    have hup : ((m - a * 2 ^ n : Int) : ℚ) ≤ (m : ℚ) := by
      have : ((m - a * 2 ^ n : Int) : ℚ) * 2 ^ e ≤ (m : ℚ) * 2 ^ e := by rw [← hval]; linarith
      exact le_of_mul_le_mul_right this h2pos
    have hnn2 : (0 : Int) ≤ m - a * 2 ^ n := by exact_mod_cast hnn
    have hup2 : m - a * 2 ^ n ≤ m := by exact_mod_cast hup
    refine ⟨m - a * 2 ^ n, e, ?_, he, hval⟩
    rw [abs_of_nonneg hnn2]
    exact lt_of_le_of_lt hup2 (lt_of_le_of_lt (le_abs_self m) hm)
  · obtain ⟨n, hn⟩ := Int.eq_ofNat_of_zero_le (le_of_lt (not_le.mp hneg))
    have hval : (m : ℚ) * 2 ^ e - a = ((m * 2 ^ n - a : Int) : ℚ) := by
      push_cast
      rw [hn, zpow_natCast]
    have hLi : (m : ℚ) * 2 ^ e = ((m * 2 ^ n : Int) : ℚ) := by
      push_cast
      rw [hn, zpow_natCast]
    rw [hval]
    apply Rep32_int
    have h1 : (0 : ℚ) ≤ ((m * 2 ^ n - a : Int) : ℚ) := by rw [← hval]; linarith
    have h2 : ((m * 2 ^ n - a : Int) : ℚ) ≤ 16777216 := by rw [← hval]; linarith
    have h1i : (0 : Int) ≤ m * 2 ^ n - a := by exact_mod_cast h1
    have h2i : m * 2 ^ n - a ≤ 16777216 := by exact_mod_cast h2
    rw [abs_of_nonneg h1i]
    exact h2i

theorem round32_cases (q : ℚ) :
    round32 q = pinf ∨ round32 q = ninf ∨ ∃ y : ℚ, round32 q = fin y := by
  rcases le_total q 0 with h | h
  · rcases (roundTo_sign 24 (-149) 128 q).1 h with h1 | ⟨y, -, hy⟩
    · exact Or.inr (Or.inl h1)
    · exact Or.inr (Or.inr ⟨y, hy⟩)
  · rcases (roundTo_sign 24 (-149) 128 q).2 h with h1 | ⟨y, -, hy⟩
    · exact Or.inl h1
    · exact Or.inr (Or.inr ⟨y, hy⟩)

end Flt

namespace Flt

theorem Near.factor_pos {c x y : ℚ} (h : Near c x y) : 0 < c := by
  obtain ⟨hx, hy, h1, -⟩ := h
  by_contra hc
  have : c * y ≤ 0 := mul_nonpos_of_nonpos_of_nonneg (not_lt.mp hc) (le_of_lt hy)
  linarith

theorem Near.refl (x : ℚ) (hx : 0 < x) : Near 1 x x :=
  ⟨hx, hx, by simp, by simp⟩

theorem Near.trans {c1 c2 x y z : ℚ} (h1 : Near c1 x y) (h2 : Near c2 y z) :
    Near (c1 * c2) x z := by
  have hc1 := h1.factor_pos
  have hc2 := h2.factor_pos
  obtain ⟨hx, hy, a1, a2⟩ := h1
  obtain ⟨-, hz, b1, b2⟩ := h2
  refine ⟨hx, hz, ?_, ?_⟩
  · calc x ≤ c1 * y := a1
      _ ≤ c1 * (c2 * z) := mul_le_mul_of_nonneg_left b1 (le_of_lt hc1)
      _ = c1 * c2 * z := by ring
  · calc z ≤ c2 * y := b2
      _ ≤ c2 * (c1 * x) := mul_le_mul_of_nonneg_left a2 (le_of_lt hc2)
      _ = c1 * c2 * x := by ring

theorem Near.mono {c c2 x y : ℚ} (h : Near c x y) (hc : c ≤ c2) : Near c2 x y := by
  obtain ⟨hx, hy, a1, a2⟩ := h
  refine ⟨hx, hy, ?_, ?_⟩
  · exact le_trans a1 (mul_le_mul_of_nonneg_right hc (le_of_lt hy))
  · exact le_trans a2 (mul_le_mul_of_nonneg_right hc (le_of_lt hx))

theorem Near.mul_const {c x y : ℚ} (h : Near c x y) (k : ℚ) (hk : 0 < k) :
    Near c (x * k) (y * k) := by
  obtain ⟨hx, hy, a1, a2⟩ := h
  refine ⟨mul_pos hx hk, mul_pos hy hk, ?_, ?_⟩
  · calc x * k ≤ c * y * k := mul_le_mul_of_nonneg_right a1 (le_of_lt hk)
      _ = c * (y * k) := by ring
  · calc y * k ≤ c * x * k := mul_le_mul_of_nonneg_right a2 (le_of_lt hk)
      _ = c * (x * k) := by ring

theorem Near.div_const {c x y : ℚ} (h : Near c x y) (k : ℚ) (hk : 0 < k) :
    Near c (x / k) (y / k) := by
  have := h.mul_const k⁻¹ (inv_pos.mpr hk)
  simpa [div_eq_mul_inv] using this

theorem Near.inv {c x y : ℚ} (h : Near c x y) : Near c x⁻¹ y⁻¹ := by
  obtain ⟨hx, hy, a1, a2⟩ := h
  refine ⟨inv_pos.mpr hx, inv_pos.mpr hy, ?_, ?_⟩
  · rw [inv_le_iff_one_le_mul₀ hx]
    have e : c * y⁻¹ * x = (c * x) * y⁻¹ := by ring
    rw [e, ← div_eq_mul_inv, le_div_iff₀ hy]
    simpa using a2
  · rw [inv_le_iff_one_le_mul₀ hy]
    have e : c * x⁻¹ * y = (c * y) * x⁻¹ := by ring
    rw [e, ← div_eq_mul_inv, le_div_iff₀ hx]
    simpa using a1

theorem Near.const_div {c x y : ℚ} (h : Near c x y) (k : ℚ) (hk : 0 < k) :
    Near c (k / x) (k / y) := by
  have := h.inv.mul_const k hk
  simpa [div_eq_mul_inv, mul_comm] using this

theorem Near.mul {c1 c2 a b x y : ℚ} (h1 : Near c1 a b) (h2 : Near c2 x y) :
    Near (c1 * c2) (a * x) (b * y) := by
  have hc1 := h1.factor_pos
  obtain ⟨ha, hb, a1, a2⟩ := h1
  obtain ⟨hx, hy, b1, b2⟩ := h2
  refine ⟨mul_pos ha hx, mul_pos hb hy, ?_, ?_⟩
  · calc a * x ≤ (c1 * b) * (c2 * y) :=
          mul_le_mul a1 b1 (le_of_lt hx) (le_of_lt (mul_pos hc1 hb))
      _ = c1 * c2 * (b * y) := by ring
  · calc b * y ≤ (c1 * a) * (c2 * x) :=
          mul_le_mul a2 b2 (le_of_lt hy) (le_of_lt (mul_pos hc1 ha))
      _ = c1 * c2 * (a * x) := by ring

theorem Near.div {c1 c2 a b x y : ℚ} (h1 : Near c1 a b) (h2 : Near c2 x y) :
    Near (c1 * c2) (a / x) (b / y) := by
  have := h1.mul h2.inv
  simpa [div_eq_mul_inv] using this

theorem Near.abs_sub_le {c x y : ℚ} (h : Near c x y) : |y - x| ≤ (c - 1) * x := by
  have hc := h.factor_pos
  obtain ⟨hx, hy, a1, a2⟩ := h
  rw [abs_le]
  constructor
  · have h4 : 0 ≤ (c - 1) * (c - 1) * x := mul_nonneg (mul_self_nonneg _) (le_of_lt hx)
    have h5 : c * (-((c - 1) * x)) ≤ c * (y - x) := by nlinarith
    exact le_of_mul_le_mul_left h5 hc
  · linarith

theorem Near.half_le {c x y : ℚ} (h : Near c x y) (hc : c ≤ 2) : x / 2 ≤ y ∧ y ≤ 2 * x := by
  obtain ⟨hx, hy, a1, a2⟩ := h.mono hc
  constructor <;> linarith

theorem round32_near (x : ℚ) (hx : 0 < x) (hlo : (2 : ℚ) ^ (-126 : Int) ≤ x)
    (hhi : x ≤ (2 : ℚ) ^ (127 : Int)) :
    ∃ y : ℚ, round32 x = fin y ∧ Near (16777216 / 16777215) x y := by
  obtain ⟨y, hy, h1, h2⟩ := roundTo_rel 24 (-149) 128 x (by norm_num) hx
    (by simpa using hlo) (by simpa using hhi)
  have e1 : (2 : ℚ) ^ (-((24 : Nat) : Int)) = 1 / 16777216 := by norm_num
  rw [e1] at h1 h2
  refine ⟨y, hy, hx, ?_, ?_, ?_⟩
  · nlinarith
  · linarith
  · linarith

theorem round64_near (x : ℚ) (hx : 0 < x) (hlo : (2 : ℚ) ^ (-1022 : Int) ≤ x)
    (hhi : x ≤ (2 : ℚ) ^ (1023 : Int)) :
    ∃ y : ℚ, round64 x = fin y ∧
      Near (9007199254740992 / 9007199254740991) x y := by
  obtain ⟨y, hy, h1, h2⟩ := roundTo_rel 53 (-1074) 1024 x (by norm_num) hx
    (by simpa using hlo) (by simpa using hhi)
  have e1 : (2 : ℚ) ^ (-((53 : Nat) : Int)) = 1 / 9007199254740992 := by norm_num
  rw [e1] at h1 h2
  refine ⟨y, hy, hx, ?_, ?_, ?_⟩
  · nlinarith
  · linarith
  · linarith

end Flt

/-! ## Frame lemmas -/

theorem chan_val (i : Fin 4) : chan ((i.val : Nat) : Int) = i := by
  apply Fin.ext
  simp only [chan, Int.toNat_ofNat]
  exact Nat.mod_eq_of_lt i.isLt

theorem foldl_preserve {α : Type} (f : State → α) (g : State → Int → State)
    (h : ∀ s i, f (g s i) = f s) (l : List Int) (s : State) :
    f (l.foldl g s) = f s := by
  induction l generalizing s with
  | nil => rfl
  | cons a l ih => rw [List.foldl_cons, ih, h]

theorem startPumpTimed_frame (s : State) (i : Int) (d : Flt) :
    (startPumpTimed s i d).currentUnixTime = s.currentUnixTime ∧
    (startPumpTimed s i d).lastProgramCheck = s.lastProgramCheck ∧
    (startPumpTimed s i d).pumpFlowRate = s.pumpFlowRate ∧
    (startPumpTimed s i d).runLog = s.runLog ∧
    (startPumpTimed s i d).currentTankLevel = s.currentTankLevel ∧
    (startPumpTimed s i d).programs = s.programs := by
  unfold startPumpTimed
  split <;> simp

theorem runPump_frame (prog : Program) (s : State) (i : Int) :
    (runPump prog s i).currentUnixTime = s.currentUnixTime ∧
    (runPump prog s i).lastProgramCheck = s.lastProgramCheck ∧
    (runPump prog s i).pumpFlowRate = s.pumpFlowRate ∧
    (runPump prog s i).runLog = s.runLog := by
  unfold runPump
  split
  · split
    · simp
    · have h := startPumpTimed_frame
        { s with currentTankLevel := consume s.currentTankLevel prog.amount } i
        (durationSeconds s prog i)
      exact ⟨h.1, h.2.1, h.2.2.1, h.2.2.2.1⟩
  · simp

theorem runProgram_frame (s : State) (prog : Program) :
    (runProgram s prog).1.currentUnixTime = s.currentUnixTime ∧
    (runProgram s prog).1.lastProgramCheck = s.lastProgramCheck ∧
    (runProgram s prog).1.pumpFlowRate = s.pumpFlowRate ∧
    (runProgram s prog).1.runLog = s.runLog := by
  unfold runProgram
  refine ⟨?_, ?_, ?_, ?_⟩
  · exact foldl_preserve (fun t => t.currentUnixTime) _ (fun t i => (runPump_frame prog t i).1) _ s
  · exact foldl_preserve (fun t => t.lastProgramCheck) _ (fun t i => (runPump_frame prog t i).2.1) _ s
  · exact foldl_preserve (fun t => t.pumpFlowRate) _ (fun t i => (runPump_frame prog t i).2.2.1) _ s
  · exact foldl_preserve (fun t => t.runLog) _ (fun t i => (runPump_frame prog t i).2.2.2) _ s

theorem runProgram_snd (s : State) (prog : Program) :
    (runProgram s prog).2 = { prog with lastRun := s.currentUnixTime } := by
  have h := (runProgram_frame s prog).1
  unfold runProgram at h ⊢
  simp only at h ⊢
  rw [h]

theorem fireStep_frame (st : State) (kp : Nat × Program) :
    (fireStep st kp).currentUnixTime = st.currentUnixTime ∧
    (fireStep st kp).lastProgramCheck = st.lastProgramCheck ∧
    (fireStep st kp).pumpFlowRate = st.pumpFlowRate ∧
    (fireStep st kp).runLog = st.runLog ++ [kp.1] := by
  have h := runProgram_frame { st with runLog := st.runLog ++ [kp.1] } kp.2
  exact h

theorem foldl_fireStep_frame (l : List (Nat × Program)) (st : State) :
    (l.foldl fireStep st).currentUnixTime = st.currentUnixTime ∧
    (l.foldl fireStep st).lastProgramCheck = st.lastProgramCheck ∧
    (l.foldl fireStep st).pumpFlowRate = st.pumpFlowRate ∧
    (l.foldl fireStep st).runLog = st.runLog ++ l.map Prod.fst := by
  induction l generalizing st with
  | nil => simp
  | cons a l ih =>
    have h := fireStep_frame st a
    have h2 := ih (fireStep st a)
    simp only [List.foldl_cons, List.map_cons]
    refine ⟨h2.1.trans h.1, h2.2.1.trans h.2.1, h2.2.2.1.trans h.2.2.1, ?_⟩
    rw [h2.2.2.2, h.2.2.2]
    simp

/-! ## Weekday lists -/

theorem dayCodes_two_letters (c : Str) (h : c ∈ dayCodes) :
    ∃ a b : Char, c = [a, b] ∧ a ≠ ',' ∧ b ≠ ',' := by
  simp only [dayCodes, List.mem_cons, List.mem_singleton, List.not_mem_nil, or_false] at h
  rcases h with rfl | rfl | rfl | rfl | rfl | rfl | rfl <;>
    exact ⟨_, _, rfl, by decide, by decide⟩

theorem dayMap_mem_dayCodes (n : Nat) : dayMap n ∈ dayCodes := by
  unfold dayMap
  split <;> simp [dayCodes]

/-- The text `c1,c2,...,cn,` searched by `isDayInList`, for a non-empty list
of codes. -/
theorem joinDays_append_comma (c : Str) (L : List Str) :
    joinDays (c :: L) ++ [','] = c ++ [','] ++ (L.map (fun x => x ++ [','])).flatten := by
  induction L generalizing c with
  | nil => simp [joinDays]
  | cons d L ih =>
    have h := ih d
    simp only [joinDays, List.append_assoc, List.map_cons, List.flatten_cons] at h ⊢
    rw [h]

theorem strstr_blocks (x y : Char) (hx : x ≠ ',') (hy : y ≠ ',') (L : List Str)
    (hL : ∀ c ∈ L, ∃ a b : Char, c = [a, b] ∧ a ≠ ',' ∧ b ≠ ',') (k : Nat) :
    0 ≤ strstr ((L.map (fun c => c ++ [','])).flatten) [x, y, ','] k ↔ [x, y] ∈ L := by
  induction L generalizing k with
  | nil => simp [strstr]
  | cons c L ih =>
    obtain ⟨a, b, rfl, -, -⟩ := hL c (List.mem_cons_self _ _)
    have ih2 := ih (fun c hc => hL c (List.mem_cons_of_mem _ hc)) (k + 1 + 1 + 1)
    have hshape : ((([a, b] : Str) :: L).map (fun c => c ++ [','])).flatten
        = a :: b :: ',' :: (L.map (fun c => c ++ [','])).flatten := by
      simp
    rw [hshape]
    simp only [strstr, List.isPrefixOf_cons₂, List.isPrefixOf_nil_left, Bool.and_true,
      beq_self_eq_true, beq_iff_eq, Bool.and_eq_true, List.mem_cons, List.cons.injEq, and_true]
    by_cases h1 : x = a ∧ y = b
    · simp [h1]
    · have h2 : ¬ (x = b ∧ y = ',' ∧
          [','].isPrefixOf (L.map (fun c => c ++ [','])).flatten = true) :=
        fun h => hy h.2.1
      have h3 : ¬ (x = ',') := hx
      simp only [h1, h2, h3, if_false, false_or, false_and]
      exact ih2

theorem isDayInList_joinDays (x y : Char) (hx : x ≠ ',') (hy : y ≠ ',') (L : List Str)
    (hL : ∀ c ∈ L, ∃ a b : Char, c = [a, b] ∧ a ≠ ',' ∧ b ≠ ',') :
    isDayInList (joinDays L) [x, y] = true ↔ [x, y] ∈ L := by
  cases L with
  | nil => simp [isDayInList, indexOf, joinDays, strstr, hx]
  | cons c L =>
    have hb := strstr_blocks x y hx hy (c :: L) hL 0
    have hj := joinDays_append_comma c L
    have hlen : ¬ (0 ≥ (joinDays (c :: L) ++ [',']).length) := by simp
    unfold isDayInList indexOf
    simp only [hlen, if_false, decide_eq_true_eq, ge_iff_le, List.cons_append,
      List.nil_append]
    rw [hj]
    simpa using hb

/-! ## The evaluation pass -/

theorem shouldRun_eq_fires (now : Int) (prog : Program) :
    shouldRun now (dayMap (getTimeComponents now).1)
      (hmBuf (getTimeComponents now).2.1 (getTimeComponents now).2.2) prog = fires now prog := by
  rfl

theorem checkPrograms_eq (now : Int) (ps : List Program) (s : State) (k : Nat)
    (hs : s.currentUnixTime = now) :
    checkPrograms (dayMap (getTimeComponents now).1)
      (hmBuf (getTimeComponents now).2.1 (getTimeComponents now).2.2) s k ps
      = ((firedFrom now k ps).foldl fireStep s, ps.map (markRun now)) := by
  induction ps generalizing s k with
  | nil => simp [checkPrograms, firedFrom]
  | cons p ps ih =>
    subst hs
    have hfr := runProgram_frame { s with runLog := s.runLog ++ [k] } p
    have ih1 := ih _ (k + 1) hfr.1
    have ih2 := ih s (k + 1) rfl
    have hsnd := runProgram_snd { s with runLog := s.runLog ++ [k] } p
    have hsr := shouldRun_eq_fires s.currentUnixTime p
    clear hfr ih
    by_cases hf : fires s.currentUnixTime p = true
    · rw [hf] at hsr
      simp only [checkPrograms, hsr, if_true, ih1, hsnd]
      simp [firedFrom, List.enumFrom_cons, List.filter_cons, hf, fireStep, markRun]
    · rw [Bool.not_eq_true] at hf
      rw [hf] at hsr
      simp only [checkPrograms, hsr, ih2]
      simp [firedFrom, List.enumFrom_cons, List.filter_cons, hf, markRun]

theorem programCheck_eq (s : State)
    (h : Int.tdiv s.currentUnixTime 60 ≠ s.lastProgramCheck) :
    programCheck s =
      { (firedFrom s.currentUnixTime 0 s.programs).foldl fireStep
          { s with lastProgramCheck := Int.tdiv s.currentUnixTime 60 } with
        programs := s.programs.map (markRun s.currentUnixTime) } := by
  have hc := checkPrograms_eq s.currentUnixTime s.programs
    { s with lastProgramCheck := Int.tdiv s.currentUnixTime 60 } 0 rfl
  unfold programCheck
  simp only [h, ne_eq, not_false_eq_true, if_true, hc]

theorem programCheck_skip (s : State)
    (h : Int.tdiv s.currentUnixTime 60 = s.lastProgramCheck) :
    programCheck s = s := by
  unfold programCheck
  simp [h]

theorem programCheck_lastProgramCheck (s : State) :
    (programCheck s).lastProgramCheck = Int.tdiv s.currentUnixTime 60 := by
  by_cases h : Int.tdiv s.currentUnixTime 60 = s.lastProgramCheck
  · rw [programCheck_skip s h, h]
  · rw [programCheck_eq s h]
    exact (foldl_fireStep_frame _ _).2.1

theorem programCheck_currentUnixTime (s : State) :
    (programCheck s).currentUnixTime = s.currentUnixTime := by
  by_cases h : Int.tdiv s.currentUnixTime 60 = s.lastProgramCheck
  · rw [programCheck_skip s h]
  · rw [programCheck_eq s h]
    exact (foldl_fireStep_frame _ _).1

theorem firedFrom_fst_sublist (now : Int) (k : Nat) (ps : List Program) :
    List.Sublist ((firedFrom now k ps).map Prod.fst) (List.range' k ps.length) := by
  have h : List.Sublist (firedFrom now k ps) (List.enumFrom k ps) := List.filter_sublist _
  have h2 := h.map Prod.fst
  rwa [List.enumFrom_map_fst] at h2

theorem mem_firedFrom_fst (now : Int) (ps : List Program) (k : Nat) :
    k ∈ (firedFrom now 0 ps).map Prod.fst ↔
      ∃ prog, ps[k]? = some prog ∧ fires now prog = true := by
  simp only [firedFrom, List.mem_map, List.mem_filter]
  constructor
  · rintro ⟨⟨i, p⟩, ⟨hmem, hf⟩, rfl⟩
    rw [List.mk_mem_enumFrom_iff_le_and_getElem?_sub] at hmem
    exact ⟨p, by simpa using hmem.2, hf⟩
  · rintro ⟨p, hp, hf⟩
    refine ⟨(k, p), ⟨?_, hf⟩, rfl⟩
    rw [List.mk_mem_enumFrom_iff_le_and_getElem?_sub]
    exact ⟨Nat.zero_le _, by simpa using hp⟩

/-- The ghost trace after an evaluation: the old trace followed by the fired
positions, in increasing order. -/
theorem programCheck_runLog (s : State) :
    ∃ fired : List Nat, (programCheck s).runLog = s.runLog ++ fired ∧
      fired.Pairwise (fun a b => a < b) ∧
      (∀ k ∈ fired, k < s.programs.length) ∧
      (Int.tdiv s.currentUnixTime 60 ≠ s.lastProgramCheck →
        fired = (firedFrom s.currentUnixTime 0 s.programs).map Prod.fst) ∧
      (Int.tdiv s.currentUnixTime 60 = s.lastProgramCheck → fired = []) := by
  by_cases h : Int.tdiv s.currentUnixTime 60 = s.lastProgramCheck
  · refine ⟨[], ?_, List.Pairwise.nil, ?_, fun h2 => absurd h h2, fun _ => rfl⟩
    · rw [programCheck_skip s h]; simp
    · intro k hk; cases hk
  · refine ⟨(firedFrom s.currentUnixTime 0 s.programs).map Prod.fst, ?_, ?_, ?_,
      fun _ => rfl, fun h2 => absurd h2 h⟩
    · rw [programCheck_eq s h]
      exact (foldl_fireStep_frame _ _).2.2.2
    · exact List.Pairwise.sublist (firedFrom_fst_sublist _ _ _) (List.pairwise_lt_range' _ _)
    · intro k hk
      have := (firedFrom_fst_sublist _ _ _).subset hk
      rw [List.mem_range'_1] at this
      omega

theorem programCheck_programs (s : State)
    (h : Int.tdiv s.currentUnixTime 60 ≠ s.lastProgramCheck) :
    (programCheck s).programs = s.programs.map (markRun s.currentUnixTime) := by
  rw [programCheck_eq s h]

/-! ## Schedule evaluation: claims C1 to C3 -/

/-- C1. Evaluation idempotence: when the schedule evaluation of `loop` runs at
`t1` and then again at `t2` in the same minute (`t1/60 == t2/60`), the second
evaluation changes nothing at all (no `lastRun`, no channel state, not the tank
level), and over both evaluations `runProgram` is called at most once per
program: the trace grows by a duplicate-free list of program positions. -/
theorem C1_evaluation_idempotent (s : State) (t1 t2 : Int)
    (h : Int.tdiv t1 60 = Int.tdiv t2 60) :
    programCheck { programCheck { s with currentUnixTime := t1 } with currentUnixTime := t2 }
      = { programCheck { s with currentUnixTime := t1 } with currentUnixTime := t2 } ∧
    ∃ fired : List Nat,
      (programCheck
          { programCheck { s with currentUnixTime := t1 } with currentUnixTime := t2 }).runLog
        = s.runLog ++ fired ∧
      fired.Nodup ∧ ∀ k ∈ fired, k < s.programs.length := by
  have hskip : programCheck
      { programCheck { s with currentUnixTime := t1 } with currentUnixTime := t2 }
      = { programCheck { s with currentUnixTime := t1 } with currentUnixTime := t2 } := by
    apply programCheck_skip
    have := programCheck_lastProgramCheck { s with currentUnixTime := t1 }
    simp only [this, h]
  refine ⟨hskip, ?_⟩
  obtain ⟨fired, hlog, hpw, hlt, -, -⟩ := programCheck_runLog { s with currentUnixTime := t1 }
  refine ⟨fired, ?_, hpw.imp (fun hab => Nat.ne_of_lt hab), hlt⟩
  rw [hskip]
  exact hlog

/-- Witness for C1: a Thursday program evaluated at 00:00:00 and again at
00:00:59 of 1970-01-08. -/
theorem C1_evaluation_idempotent_witness :
    Int.tdiv 604800 60 = Int.tdiv 604859 60 ∧
    (programCheck { programCheck { idleState [thursdayProgram 1 0] 0 with
        currentUnixTime := 604800 } with currentUnixTime := 604859 }
      = { programCheck { idleState [thursdayProgram 1 0] 0 with
        currentUnixTime := 604800 } with currentUnixTime := 604859 } ∧
    ∃ fired : List Nat,
      (programCheck { programCheck { idleState [thursdayProgram 1 0] 0 with
          currentUnixTime := 604800 } with currentUnixTime := 604859 }).runLog
        = (idleState [thursdayProgram 1 0] 0).runLog ++ fired ∧
      fired.Nodup ∧ ∀ k ∈ fired, k < (idleState [thursdayProgram 1 0] 0).programs.length) :=
  ⟨by decide, C1_evaluation_idempotent (idleState [thursdayProgram 1 0] 0) 604800 604859
    (by decide)⟩

theorem intervalSec_small (prog : Program) (h1 : 1 ≤ prog.interval)
    (h2 : prog.interval ≤ 3550) : intervalSec prog = prog.interval * 7 * 86400 := by
  unfold intervalSec wrap32
  omega

theorem fires_iff (now : Int) (prog : Program) :
    fires now prog = true ↔
      prog.active = true ∧
      isDayInList prog.days (dayMap (getTimeComponents now).1) = true ∧
      ¬ (prog.lastRun ≠ 0 ∧ now < prog.lastRun + intervalSec prog) ∧
      hmBuf (getTimeComponents now).2.1 (getTimeComponents now).2.2 = prog.time := by
  unfold fires shouldRun
  cases h1 : prog.active <;>
    cases h2 : isDayInList prog.days (dayMap (getTimeComponents now).1) <;>
    cases h3 : (prog.lastRun != 0 && decide (now < prog.lastRun + intervalSec prog)) <;>
    simp_all

theorem fires_false_of_gate (now : Int) (prog : Program) (hD : prog.lastRun ≠ 0)
    (h : now < prog.lastRun + intervalSec prog) : fires now prog = false := by
  rw [Bool.eq_false_iff]
  intro hf
  exact ((fires_iff now prog).1 hf).2.2.1 ⟨hD, h⟩

/-- C2 (as amended). Interval gating: a program at position `k` whose
`intervalWeeks = w` satisfies `1 <= w <= 3550` (so that `w*7*24*3600` fits the
32-bit `int` it is computed in) and whose `lastRun = D` is set (`D != 0`; zero
is the encoding of "never") is not fired by the schedule evaluation at any
`now < D + w*7*86400`: the program is unchanged (`lastRun` stays `D`) and its
position is not added to the trace of `runProgram` calls, whatever its active
flag, weekday list and time of day are. -/
theorem C2_interval_gating (s : State) (k : Nat) (prog : Program)
    (hk : s.programs[k]? = some prog)
    (hw1 : 1 ≤ prog.interval) (hw2 : prog.interval ≤ 3550)
    (hD : prog.lastRun ≠ 0)
    (hnow : s.currentUnixTime < prog.lastRun + prog.interval * 7 * 86400) :
    (programCheck s).programs[k]? = some prog ∧
    ∃ fired : List Nat, (programCheck s).runLog = s.runLog ++ fired ∧ k ∉ fired := by
  have hnf := fires_false_of_gate s.currentUnixTime prog hD
    (by rw [intervalSec_small prog hw1 hw2]; exact hnow)
  obtain ⟨fired, hlog, -, -, hyes, hno⟩ := programCheck_runLog s
  by_cases h : Int.tdiv s.currentUnixTime 60 = s.lastProgramCheck
  · refine ⟨by rw [programCheck_skip s h]; exact hk, fired, hlog, ?_⟩
    rw [hno h]
    exact List.not_mem_nil k
  · refine ⟨?_, fired, hlog, ?_⟩
    · rw [programCheck_programs s h, List.getElem?_map, hk]
      simp [markRun, hnf]
    · rw [hyes h, mem_firedFrom_fst]
      rintro ⟨p, hp, hf⟩
      rw [hk] at hp
      cases hp
      rw [hnf] at hf
      cases hf

/-- Witness for C2: a two-week Thursday program last run on 1970-01-08 00:00
is evaluated one week later, on a matching Thursday at 00:00. -/
theorem C2_interval_gating_witness :
    (idleState [thursdayProgram 2 604800] 1209600).programs[0]?
      = some (thursdayProgram 2 604800) ∧
    (1 : Int) ≤ (thursdayProgram 2 604800).interval ∧
    (thursdayProgram 2 604800).interval ≤ 3550 ∧
    (thursdayProgram 2 604800).lastRun ≠ 0 ∧
    (idleState [thursdayProgram 2 604800] 1209600).currentUnixTime
      < (thursdayProgram 2 604800).lastRun + (thursdayProgram 2 604800).interval * 7 * 86400 ∧
    ((programCheck (idleState [thursdayProgram 2 604800] 1209600)).programs[0]?
      = some (thursdayProgram 2 604800) ∧
    ∃ fired : List Nat,
      (programCheck (idleState [thursdayProgram 2 604800] 1209600)).runLog
        = (idleState [thursdayProgram 2 604800] 1209600).runLog ++ fired ∧ 0 ∉ fired) :=
  ⟨rfl, by decide, by decide, by decide, by decide,
    C2_interval_gating (idleState [thursdayProgram 2 604800] 1209600) 0
      (thursdayProgram 2 604800) rfl (by decide) (by decide) (by decide) (by decide)⟩

/-- C2 as stated fails at two inputs, both on a Thursday at 00:00 with an
active Thursday 00:00 program. First: `intervalWeeks = 2`, `lastRun = 0` and
`now = 604800 < 0 + 2*7*86400`; the program is fired. Second:
`intervalWeeks = 7101`, `lastRun = 604800` and
`now = 1209600 < 604800 + 7101*7*86400`; the 32-bit product is `-282496` and
the program is fired. -/
theorem C2_interval_gating_counterexample :
    ((thursdayProgram 2 0).interval = 2 ∧ (thursdayProgram 2 0).lastRun = 0 ∧
      (idleState [thursdayProgram 2 0] 604800).currentUnixTime < 0 + 2 * 7 * 86400 ∧
      (programCheck (idleState [thursdayProgram 2 0] 604800)).programs.map Program.lastRun
        = [604800] ∧
      (programCheck (idleState [thursdayProgram 2 0] 604800)).runLog = [0]) ∧
    ((thursdayProgram 7101 604800).interval = 7101 ∧
      (thursdayProgram 7101 604800).lastRun = 604800 ∧
      (idleState [thursdayProgram 7101 604800] 1209600).currentUnixTime
        < 604800 + 7101 * 7 * 86400 ∧
      intervalSec (thursdayProgram 7101 604800) = -282496 ∧
      (programCheck (idleState [thursdayProgram 7101 604800] 1209600)).programs.map
        Program.lastRun = [1209600] ∧
      (programCheck (idleState [thursdayProgram 7101 604800] 1209600)).runLog = [0]) := by
  have hf1 : fires 604800 (thursdayProgram 2 0) = true := by decide
  have hf2 : fires 1209600 (thursdayProgram 7101 604800) = true := by decide
  have e1 := programCheck_eq (idleState [thursdayProgram 2 0] 604800) (by decide)
  have e2 := programCheck_eq (idleState [thursdayProgram 7101 604800] 1209600) (by decide)
  have l1 := foldl_fireStep_frame
    (firedFrom 604800 0 [thursdayProgram 2 0])
    { idleState [thursdayProgram 2 0] 604800 with lastProgramCheck := Int.tdiv 604800 60 }
  have l2 := foldl_fireStep_frame
    (firedFrom 1209600 0 [thursdayProgram 7101 604800])
    { idleState [thursdayProgram 7101 604800] 1209600 with
      lastProgramCheck := Int.tdiv 1209600 60 }
  refine ⟨⟨rfl, rfl, by decide, ?_, ?_⟩, ⟨rfl, rfl, by decide, by decide, ?_, ?_⟩⟩
  · rw [e1]
    simp [idleState, markRun, hf1]
  · rw [e1]
    simp only [idleState] at l1 ⊢
    rw [l1.2.2.2]
    simp [firedFrom, List.enumFrom, hf1]
  · rw [e2]
    simp [idleState, markRun, hf2]
  · rw [e2]
    simp only [idleState] at l2 ⊢
    rw [l2.2.2.2]
    simp [firedFrom, List.enumFrom, hf2]

theorem intervalSec_exact (prog : Program) (h1 : -3550 ≤ prog.interval)
    (h2 : prog.interval ≤ 3550) : intervalSec prog = prog.interval * 7 * 86400 := by
  unfold intervalSec wrap32
  omega

/-- The reading of `getTimeComponents` at an instant given by its UTC day
number since 1970-01-01, hour, minute and second. -/
theorem getTimeComponents_utc (now d : Int) (wd hh mm ss : Nat)
    (hnow : now = 86400 * d + 3600 * hh + 60 * mm + ss)
    (hhh : hh < 24) (hmm : mm < 60) (hss : ss < 60) (hwd : (d + 4) % 7 = (wd : Int)) :
    getTimeComponents now = (wd, hh, mm) := by
  have h1 : now / 86400 = d := by omega
  have h2 : now % 86400 = 3600 * hh + 60 * mm + ss := by omega
  unfold getTimeComponents
  simp only [h1, h2, hwd, Int.toNat_ofNat]
  have h3 : (3600 * (hh : Int) + 60 * mm + ss) / 3600 = hh := by omega
  have h4 : (3600 * (hh : Int) + 60 * mm + ss) % 3600 / 60 = mm := by omega
  rw [h3, h4]
  simp

theorem dayMap_eq_weekdayCode (wd : Nat) (h : wd < 7) : dayMap wd = weekdayCode wd := by
  interval_cases wd <;> rfl

theorem digitChar_eq_digit (n : Nat) (h : n < 10) : Nat.digitChar n = digit n := by
  interval_cases n <;> rfl

theorem hmBuf_eq_clockText (hh mm : Nat) (hhh : hh < 24) (hmm : mm < 60) :
    hmBuf hh mm = clockText hh mm := by
  unfold hmBuf fmt02 clockText
  rw [digitChar_eq_digit (hh / 10) (by omega), digitChar_eq_digit (hh % 10) (by omega),
    digitChar_eq_digit (mm / 10) (by omega), digitChar_eq_digit (mm % 10) (by omega)]
  rfl

/-- The decision of the loop body in the words of the specification, for a
program whose weekday string lists the codes `ds` and whose interval product
fits 32 bits. -/
theorem fires_iff_spec (now d : Int) (wd hh mm ss : Nat) (prog : Program) (ds : List Str)
    (hnow : now = 86400 * d + 3600 * hh + 60 * mm + ss)
    (hhh : hh < 24) (hmm : mm < 60) (hss : ss < 60) (hwd : (d + 4) % 7 = (wd : Int))
    (hw1 : -3550 ≤ prog.interval) (hw2 : prog.interval ≤ 3550)
    (hdays : prog.days = joinDays ds) (hds : ∀ c ∈ ds, c ∈ dayCodes) :
    fires now prog = true ↔
      prog.active = true ∧ weekdayCode wd ∈ ds ∧ inCoolDownWindow now prog = false ∧
        prog.time = clockText hh mm := by
  have hwd7 : wd < 7 := by omega
  have hcode : weekdayCode wd ∈ dayCodes := by
    rw [← dayMap_eq_weekdayCode wd hwd7]
    exact dayMap_mem_dayCodes wd
  obtain ⟨x, y, hxy, hx, hy⟩ := dayCodes_two_letters _ hcode
  have hday : isDayInList prog.days (weekdayCode wd) = true ↔ weekdayCode wd ∈ ds := by
    rw [hdays, hxy]
    exact isDayInList_joinDays x y hx hy ds (fun c hc => dayCodes_two_letters c (hds c hc))
  have hcool : inCoolDownWindow now prog = false ↔
      ¬ (prog.lastRun ≠ 0 ∧ now < prog.lastRun + intervalSec prog) := by
    rw [intervalSec_exact prog hw1 hw2]
    unfold inCoolDownWindow
    rw [Bool.eq_false_iff]
    simp only [ne_eq, Bool.and_eq_true, bne_iff_ne, decide_eq_true_eq]
  rw [fires_iff, getTimeComponents_utc now d wd hh mm ss hnow hhh hmm hss hwd]
  simp only
  rw [dayMap_eq_weekdayCode wd hwd7, hmBuf_eq_clockText hh mm hhh hmm, hday, hcool]
  constructor
  · rintro ⟨a, b, c, e⟩
    exact ⟨a, b, c, e.symm⟩
  · rintro ⟨a, b, c, e⟩
    exact ⟨a, b, c, e.symm⟩

/-- C3 (as amended). Firing decision: let `now` be the instant of an
evaluation pass in a minute not yet evaluated, with the UTC reading day `d`
since 1970-01-01, `hh:mm:ss`, and weekday `wd = (d + 4) mod 7` (0 = Sunday).
The pass calls `runProgram` for the positions `fired`, in increasing order
(collection order), and the globals are those obtained by running these
programs in that order; the program at every position is left unchanged
unless its position is in `fired`, and then exactly its `lastRun` is set to
`now`. A program with `-3550 <= intervalWeeks <= 3550` (so that
`intervalWeeks*7*24*3600` fits the 32-bit `int` it is computed in) whose
weekday string lists the codes `ds` is in `fired` if and only if it is
active, the code of the weekday `wd` is in `ds`, it is not inside its
cool-down window (`lastRun != 0` and `now < lastRun + intervalWeeks*7*86400`)
and its time of day is the text `HH:MM` of `hh:mm`. -/
theorem C3_firing_decision (s : State) (d : Int) (wd hh mm ss : Nat)
    (h : Int.tdiv s.currentUnixTime 60 ≠ s.lastProgramCheck)
    (hnow : s.currentUnixTime = 86400 * d + 3600 * hh + 60 * mm + ss)
    (hhh : hh < 24) (hmm : mm < 60) (hss : ss < 60) (hwd : (d + 4) % 7 = (wd : Int)) :
    ∃ fired : List Nat,
      (programCheck s).runLog = s.runLog ++ fired ∧
      fired.Pairwise (fun a b => a < b) ∧
      fired = (firedFrom s.currentUnixTime 0 s.programs).map Prod.fst ∧
      programCheck s =
        { (firedFrom s.currentUnixTime 0 s.programs).foldl fireStep
            { s with lastProgramCheck := Int.tdiv s.currentUnixTime 60 } with
          programs := s.programs.map (markRun s.currentUnixTime) } ∧
      (∀ (k : Nat) (prog : Program), s.programs[k]? = some prog →
        (programCheck s).programs[k]? =
          some (if k ∈ fired then { prog with lastRun := s.currentUnixTime } else prog)) ∧
      (∀ (k : Nat) (prog : Program) (ds : List Str), s.programs[k]? = some prog →
        -3550 ≤ prog.interval → prog.interval ≤ 3550 →
        prog.days = joinDays ds → (∀ c ∈ ds, c ∈ dayCodes) →
        (k ∈ fired ↔
          prog.active = true ∧ weekdayCode wd ∈ ds ∧
            inCoolDownWindow s.currentUnixTime prog = false ∧
            prog.time = clockText hh mm)) := by
  obtain ⟨fired, hlog, hpw, -, hyes, -⟩ := programCheck_runLog s
  have hmem : ∀ (k : Nat) (prog : Program), s.programs[k]? = some prog →
      (k ∈ fired ↔ fires s.currentUnixTime prog = true) := by
    intro k prog hk
    rw [hyes h, mem_firedFrom_fst]
    constructor
    · rintro ⟨p, hp, hf⟩
      rw [hk] at hp
      cases hp
      exact hf
    · intro hf
      exact ⟨prog, hk, hf⟩
  refine ⟨fired, hlog, hpw, hyes h, programCheck_eq s h, ?_, ?_⟩
  · intro k prog hk
    rw [programCheck_programs s h, List.getElem?_map, hk]
    simp only [Option.map_some', markRun]
    by_cases hf : fires s.currentUnixTime prog = true
    · rw [if_pos hf, if_pos ((hmem k prog hk).2 hf)]
    · rw [if_neg hf, if_neg (fun hk2 => hf ((hmem k prog hk).1 hk2))]
  · intro k prog ds hk hw1 hw2 hdays hds
    rw [hmem k prog hk]
    exact fires_iff_spec s.currentUnixTime d wd hh mm ss prog ds hnow hhh hmm hss hwd hw1 hw2
      hdays hds

/-- Witness for C3: the weekly Thursday program at 00:00 of 1970-01-08 (day 7,
weekday 4) is fired and its `lastRun` is set. -/
theorem C3_firing_decision_witness :
    (programCheck (idleState [thursdayProgram 1 0] 604800)).programs[0]? =
      some { thursdayProgram 1 0 with lastRun := 604800 } := by
  obtain ⟨fired, -, -, -, -, hprog, hiff⟩ :=
    C3_firing_decision (idleState [thursdayProgram 1 0] 604800) 7 4 0 0 0 (by decide) (by decide)
      (by decide) (by decide) (by decide) (by decide)
  have h0 : 0 ∈ fired :=
    (hiff 0 (thursdayProgram 1 0) [['D', 'o']] rfl (by decide) (by decide) rfl (by decide)).2
      ⟨rfl, by decide, by decide, by decide⟩
  have h1 := hprog 0 (thursdayProgram 1 0) rfl
  rw [if_pos h0] at h1
  exact h1

/-- C3 as stated fails for a program whose interval product overflows the
32-bit `int`: on Thursday 1970-01-15 at 00:00 (day 14) the active Thursday
00:00 program with `intervalWeeks = 7101` and `lastRun = 604800` is inside its
cool-down window (`1209600 < 604800 + 7101*7*86400`), and the evaluation pass
fires it. -/
theorem C3_firing_decision_counterexample :
    (idleState [thursdayProgram 7101 604800] 1209600).currentUnixTime
      = 86400 * 14 + 3600 * 0 + 60 * 0 + 0 ∧
    Int.tdiv (idleState [thursdayProgram 7101 604800] 1209600).currentUnixTime 60
      ≠ (idleState [thursdayProgram 7101 604800] 1209600).lastProgramCheck ∧
    (thursdayProgram 7101 604800).lastRun ≠ 0 ∧
    (1209600 : Int) < (thursdayProgram 7101 604800).lastRun
      + (thursdayProgram 7101 604800).interval * 7 * 86400 ∧
    inCoolDownWindow 1209600 (thursdayProgram 7101 604800) = true ∧
    (programCheck (idleState [thursdayProgram 7101 604800] 1209600)).runLog = [0] ∧
    (programCheck (idleState [thursdayProgram 7101 604800] 1209600)).programs
      = [{ thursdayProgram 7101 604800 with lastRun := 1209600 }] := by
  have hf : fires 1209600 (thursdayProgram 7101 604800) = true := by decide
  have e := programCheck_eq (idleState [thursdayProgram 7101 604800] 1209600) (by decide)
  have l := foldl_fireStep_frame
    (firedFrom 1209600 0 [thursdayProgram 7101 604800])
    { idleState [thursdayProgram 7101 604800] 1209600 with
      lastProgramCheck := Int.tdiv 1209600 60 }
  refine ⟨by decide, by decide, by decide, by decide, by decide, ?_, ?_⟩
  · rw [e]
    simp only [idleState] at l ⊢
    rw [l.2.2.2]
    simp [firedFrom, List.enumFrom, hf]
  · rw [e]
    simp [idleState, markRun, hf]

/-! ## Channel deadlines: claims C4 and C5 -/

theorem chan0 : chan 0 = 0 := rfl

theorem chan1 : chan 1 = 1 := rfl

theorem chan2 : chan 2 = 2 := rfl

theorem chan3 : chan 3 = 3 := rfl

theorem cRound_nonneg (d : ℚ) (hd : 0 < d) : 0 ≤ Flt.cRound d := by
  unfold Flt.cRound
  rw [if_pos hd.le]
  apply Int.floor_nonneg.mpr
  linarith

/-- C4 (as amended). Deadline extension: for every channel `i` in 0..3, every
clock value and every finite duration `d > 0`, after `startPumpTimed(i, d)` the
channel is on and its deadline is `max(previous deadline, now + round(d))`,
where `round(d)` is `d` rounded to the nearest whole second, halves away from
zero; hence the deadline is never less than the previous one and is at least
`now`. -/
theorem C4_deadline_extension (s : State) (i : Fin 4) (d : ℚ) (hd : 0 < d) :
    (startPumpTimed s ((i.val : Nat) : Int) (Flt.fin d)).pumpStatus i = true ∧
    (startPumpTimed s ((i.val : Nat) : Int) (Flt.fin d)).pumpRunEnd i
      = max (s.pumpRunEnd i) (s.currentUnixTime + Flt.cRound d) ∧
    s.pumpRunEnd i ≤ (startPumpTimed s ((i.val : Nat) : Int) (Flt.fin d)).pumpRunEnd i ∧
    s.currentUnixTime ≤ (startPumpTimed s ((i.val : Nat) : Int) (Flt.fin d)).pumpRunEnd i := by
  have hr := cRound_nonneg d hd
  have hi : ¬ (((i.val : Nat) : Int) < 0 ∨ ((i.val : Nat) : Int) > 3 ∨
      (Flt.fin d).leZero = true) := by
    have := i.isLt
    simp only [Flt.leZero, decide_eq_true_eq, not_or, not_le]
    exact ⟨by omega, by omega, hd⟩
  have hdl : (startPumpTimed s ((i.val : Nat) : Int) (Flt.fin d)).pumpRunEnd i
      = max (s.pumpRunEnd i) (s.currentUnixTime + Flt.cRound d) := by
    unfold startPumpTimed
    simp only [hi, if_false, chan_val, Flt.toTimeT]
    split_ifs with hgt
    · rw [Function.update_same, max_eq_right (le_of_lt hgt)]
    · rw [max_eq_left (not_lt.mp hgt)]
  refine ⟨?_, hdl, ?_, ?_⟩
  · unfold startPumpTimed
    simp only [hi, if_false, chan_val, Function.update_same]
  · rw [hdl]; exact le_max_left _ _
  · rw [hdl]; exact le_trans (by omega) (le_max_right _ _)

/-- Witness for C4: channel 0, clock 100, duration 2.5 s. -/
theorem C4_deadline_extension_witness :
    (0 : ℚ) < 5 / 2 ∧
    ((startPumpTimed (idleState [] 100) (((0 : Fin 4).val : Nat) : Int)
        (Flt.fin (5 / 2))).pumpStatus 0 = true ∧
    (startPumpTimed (idleState [] 100) (((0 : Fin 4).val : Nat) : Int)
        (Flt.fin (5 / 2))).pumpRunEnd 0
      = max ((idleState [] 100).pumpRunEnd 0)
          ((idleState [] 100).currentUnixTime + Flt.cRound (5 / 2)) ∧
    (idleState [] 100).pumpRunEnd 0 ≤
      (startPumpTimed (idleState [] 100) (((0 : Fin 4).val : Nat) : Int)
        (Flt.fin (5 / 2))).pumpRunEnd 0 ∧
    (idleState [] 100).currentUnixTime ≤
      (startPumpTimed (idleState [] 100) (((0 : Fin 4).val : Nat) : Int)
        (Flt.fin (5 / 2))).pumpRunEnd 0) :=
  ⟨by norm_num, C4_deadline_extension (idleState [] 100) 0 (5 / 2) (by norm_num)⟩

/-- C4 as stated fails for a duration that is not a whole number of seconds:
on channel 0 with no pending deadline, clock 100 and `d = 2.5`, the deadline
becomes 103, which is not `max(0, 100 + 2.5)`. -/
theorem C4_deadline_extension_counterexample :
    (startPumpTimed (idleState [] 100) 0 (Flt.fin (5 / 2))).pumpRunEnd 0 = 103 ∧
    (((startPumpTimed (idleState [] 100) 0 (Flt.fin (5 / 2))).pumpRunEnd 0 : Int) : ℚ)
      ≠ max (((idleState [] 100).pumpRunEnd 0 : Int) : ℚ)
          ((((idleState [] 100).currentUnixTime : Int) : ℚ) + 5 / 2) := by
  have hr : Flt.cRound (5 / 2) = 3 := by
    unfold Flt.cRound
    rw [if_pos (by norm_num), Int.floor_eq_iff]
    norm_num
  have h : (startPumpTimed (idleState [] 100) 0 (Flt.fin (5 / 2))).pumpRunEnd 0 = 103 := by
    norm_num [startPumpTimed, idleState, Flt.leZero, Flt.toTimeT, hr, chan0]
  refine ⟨h, ?_⟩
  rw [h]
  simp only [idleState]
  norm_num

theorem deadlineStep_currentUnixTime (s : State) (j : Int) :
    (deadlineStep s j).currentUnixTime = s.currentUnixTime := by
  unfold deadlineStep stopPump
  split_ifs <;> rfl

theorem deadlineStep_apply (s : State) (j : Int) (hj : 0 ≤ j ∧ j ≤ 3) (i : Fin 4) :
    (deadlineStep s j).pumpStatus i =
      (if chan j = i ∧ s.pumpStatus i = true ∧ 0 < s.pumpRunEnd i ∧
          s.pumpRunEnd i ≤ s.currentUnixTime then false else s.pumpStatus i) ∧
    (deadlineStep s j).pumpRunEnd i =
      (if chan j = i ∧ s.pumpStatus i = true ∧ 0 < s.pumpRunEnd i ∧
          s.pumpRunEnd i ≤ s.currentUnixTime then 0 else s.pumpRunEnd i) ∧
    (deadlineStep s j).pumpPin i =
      (if chan j = i ∧ s.pumpStatus i = true ∧ 0 < s.pumpRunEnd i ∧
          s.pumpRunEnd i ≤ s.currentUnixTime then false else s.pumpPin i) := by
  have hj2 : ¬ (j < 0 ∨ j > 3) := by omega
  by_cases hc : chan j = i
  · subst hc
    unfold deadlineStep stopPump
    simp only [hj2, if_false, gt_iff_lt, ge_iff_le, true_and]
    split_ifs <;> simp_all
  · unfold deadlineStep stopPump
    simp only [hj2, if_false, gt_iff_lt, ge_iff_le, hc, false_and, if_false]
    split_ifs <;> simp [Function.update_noteq (Ne.symm hc)]

theorem deadlineCheck_apply (s : State) (i : Fin 4) :
    (deadlineCheck s).pumpStatus i =
      (if s.pumpStatus i = true ∧ 0 < s.pumpRunEnd i ∧
          s.pumpRunEnd i ≤ s.currentUnixTime then false else s.pumpStatus i) ∧
    (deadlineCheck s).pumpRunEnd i =
      (if s.pumpStatus i = true ∧ 0 < s.pumpRunEnd i ∧
          s.pumpRunEnd i ≤ s.currentUnixTime then 0 else s.pumpRunEnd i) ∧
    (deadlineCheck s).pumpPin i =
      (if s.pumpStatus i = true ∧ 0 < s.pumpRunEnd i ∧
          s.pumpRunEnd i ≤ s.currentUnixTime then false else s.pumpPin i) := by
  unfold deadlineCheck
  simp only [List.foldl_cons, List.foldl_nil]
  have a0 := deadlineStep_apply s 0 (by omega) i
  have a1 := deadlineStep_apply (deadlineStep s 0) 1 (by omega) i
  have a2 := deadlineStep_apply (deadlineStep (deadlineStep s 0) 1) 2 (by omega) i
  have a3 := deadlineStep_apply (deadlineStep (deadlineStep (deadlineStep s 0) 1) 2) 3
    (by omega) i
  simp only [deadlineStep_currentUnixTime, chan0, chan1, chan2, chan3] at a0 a1 a2 a3
  rw [a3.1, a3.2.1, a3.2.2, a2.1, a2.2.1, a2.2.2, a1.1, a1.2.1, a1.2.2, a0.1, a0.2.1, a0.2.2]
  fin_cases i <;> simp

/-- C5. Auto-off: in the deadline check of a tick that observes the clock value
`now`, a channel that is on with a pending deadline `0 < e <= now` is turned
off (status and pin) and its deadline is cleared; a channel that is on with a
pending deadline `e > now` stays on with the same deadline; a channel without
a pending deadline (off, or on with deadline 0) is not touched. -/
theorem C5_auto_off (s : State) (i : Fin 4) :
    (s.pumpStatus i = true ∧ 0 < s.pumpRunEnd i ∧ s.pumpRunEnd i ≤ s.currentUnixTime →
      (deadlineCheck s).pumpStatus i = false ∧ (deadlineCheck s).pumpRunEnd i = 0 ∧
        (deadlineCheck s).pumpPin i = false) ∧
    (s.pumpStatus i = true ∧ 0 < s.pumpRunEnd i ∧ s.currentUnixTime < s.pumpRunEnd i →
      (deadlineCheck s).pumpStatus i = true ∧
        (deadlineCheck s).pumpRunEnd i = s.pumpRunEnd i ∧
        (deadlineCheck s).pumpPin i = s.pumpPin i) ∧
    (¬ (s.pumpStatus i = true ∧ 0 < s.pumpRunEnd i) →
      (deadlineCheck s).pumpStatus i = s.pumpStatus i ∧
        (deadlineCheck s).pumpRunEnd i = s.pumpRunEnd i ∧
        (deadlineCheck s).pumpPin i = s.pumpPin i) := by
  obtain ⟨h1, h2, h3⟩ := deadlineCheck_apply s i
  refine ⟨fun h => ?_, fun h => ?_, fun h => ?_⟩
  · rw [h1, h2, h3, if_pos h, if_pos h, if_pos h]
    exact ⟨rfl, rfl, rfl⟩
  · have hn : ¬ (s.pumpStatus i = true ∧ 0 < s.pumpRunEnd i ∧
        s.pumpRunEnd i ≤ s.currentUnixTime) := fun hh => absurd hh.2.2 (not_le.mpr h.2.2)
    rw [h1, h2, h3, if_neg hn, if_neg hn, if_neg hn]
    exact ⟨h.1, rfl, rfl⟩
  · have hn : ¬ (s.pumpStatus i = true ∧ 0 < s.pumpRunEnd i ∧
        s.pumpRunEnd i ≤ s.currentUnixTime) := fun hh => h ⟨hh.1, hh.2.1⟩
    rw [h1, h2, h3, if_neg hn, if_neg hn, if_neg hn]
    exact ⟨rfl, rfl, rfl⟩

/-! ## Running a program and the tank: claims C6 to C8 -/

theorem foldl_congr_inv (f g : State → Int → State) (P : State → Prop)
    (hfg : ∀ t j, P t → f t j = g t j) (hP : ∀ t j, P t → P (f t j))
    (l : List Int) (t : State) (ht : P t) : l.foldl f t = l.foldl g t := by
  induction l generalizing t with
  | nil => rfl
  | cons a l ih =>
    rw [List.foldl_cons, List.foldl_cons, ← hfg t a ht]
    exact ih _ (hP t a ht)

theorem startPumpTimed_other (t : State) (j : Int) (d : Flt) (i : Fin 4) (h : chan j ≠ i) :
    (startPumpTimed t j d).pumpStatus i = t.pumpStatus i ∧
    (startPumpTimed t j d).pumpRunEnd i = t.pumpRunEnd i ∧
    (startPumpTimed t j d).pumpPin i = t.pumpPin i := by
  unfold startPumpTimed
  by_cases hg : j < 0 ∨ j > 3 ∨ d.leZero = true
  · simp only [hg, if_true, and_self]
  · simp only [hg, if_false]
    refine ⟨Function.update_noteq (Ne.symm h) _ _, ?_, Function.update_noteq (Ne.symm h) _ _⟩
    split_ifs
    · exact Function.update_noteq (Ne.symm h) _ _
    · rfl

theorem runPump_unselected (prog : Program) (t : State) (j : Int) (i : Fin 4)
    (h : prog.pumps i = false) :
    (runPump prog t j).pumpStatus i = t.pumpStatus i ∧
    (runPump prog t j).pumpRunEnd i = t.pumpRunEnd i ∧
    (runPump prog t j).pumpPin i = t.pumpPin i := by
  by_cases hc : chan j = i
  · unfold runPump
    rw [hc, h]
    simp
  · unfold runPump
    split_ifs
    · exact ⟨rfl, rfl, rfl⟩
    · exact startPumpTimed_other _ j _ i hc
    · exact ⟨rfl, rfl, rfl⟩

theorem runPump_skip (prog : Program) (t : State) (j : Int)
    (h : prog.pumps (chan j) = true → (t.pumpFlowRate (chan j)).leZero = true) :
    runPump prog t j = t := by
  unfold runPump
  by_cases hs : prog.pumps (chan j) = true
  · simp [hs, h hs]
  · simp [hs]

theorem runPump_deselect (prog : Program) (t : State) (j : Int) (i : Fin 4)
    (hrate : (t.pumpFlowRate i).leZero = true) :
    runPump prog t j = runPump { prog with pumps := Function.update prog.pumps i false } t j := by
  by_cases hc : chan j = i
  · rw [runPump_skip prog t j (fun _ => by rw [hc]; exact hrate)]
    rw [runPump_skip _ t j (fun hsel => by
      have h2 : Function.update prog.pumps i false (chan j) = true := hsel
      rw [hc, Function.update_same] at h2
      cases h2)]
  · unfold runPump
    simp only [Function.update_noteq hc]
    rfl

/-- C6. Uncalibrated skip: when `runProgram` runs a program that selects a
channel `i` whose flow rate is 0, no timed start is issued for `i` (status,
deadline and pin of `i` are unchanged) and nothing is subtracted from the tank
for `i` (the globals are those of running the program with `i` deselected),
while `lastRun` is set to `now`; and when every selected channel has flow rate
0, all globals (tank level, all channel states) are unchanged and
`lastRun == now`. -/
theorem C6_uncalibrated_skip (s : State) (prog : Program) :
    (∀ i : Fin 4, prog.pumps i = true → s.pumpFlowRate i = Flt.fin 0 →
      (runProgram s prog).1.pumpStatus i = s.pumpStatus i ∧
      (runProgram s prog).1.pumpRunEnd i = s.pumpRunEnd i ∧
      (runProgram s prog).1.pumpPin i = s.pumpPin i ∧
      (runProgram s prog).1
        = (runProgram s { prog with pumps := Function.update prog.pumps i false }).1 ∧
      (runProgram s prog).2 = { prog with lastRun := s.currentUnixTime }) ∧
    ((∀ i : Fin 4, prog.pumps i = true → s.pumpFlowRate i = Flt.fin 0) →
      runProgram s prog = (s, { prog with lastRun := s.currentUnixTime })) := by
  constructor
  · intro i _ hrate
    have hle : (s.pumpFlowRate i).leZero = true := by rw [hrate]; simp [Flt.leZero]
    have heq : (runProgram s prog).1
        = (runProgram s { prog with pumps := Function.update prog.pumps i false }).1 := by
      unfold runProgram
      exact foldl_congr_inv _ _ (fun t => t.pumpFlowRate = s.pumpFlowRate)
        (fun t j ht => runPump_deselect prog t j i (by rw [ht]; exact hle))
        (fun t j ht => by
          show (runPump prog t j).pumpFlowRate = s.pumpFlowRate
          rw [(runPump_frame prog t j).2.2.1]
          exact ht) _ s rfl
    have hun : ∀ (t : State) (j : Int),
        (runPump { prog with pumps := Function.update prog.pumps i false } t j).pumpStatus i
          = t.pumpStatus i ∧
        (runPump { prog with pumps := Function.update prog.pumps i false } t j).pumpRunEnd i
          = t.pumpRunEnd i ∧
        (runPump { prog with pumps := Function.update prog.pumps i false } t j).pumpPin i
          = t.pumpPin i :=
      fun t j => runPump_unselected _ t j i (by simp)
    refine ⟨?_, ?_, ?_, heq, runProgram_snd s prog⟩
    · rw [heq]
      exact foldl_preserve (fun t => t.pumpStatus i) _ (fun t j => (hun t j).1) _ s
    · rw [heq]
      exact foldl_preserve (fun t => t.pumpRunEnd i) _ (fun t j => (hun t j).2.1) _ s
    · rw [heq]
      exact foldl_preserve (fun t => t.pumpPin i) _ (fun t j => (hun t j).2.2) _ s
  · intro hall
    have hfst : (runProgram s prog).1 = s := by
      unfold runProgram
      have hstep : ∀ (l : List Int), l.foldl (runPump prog) s = s := by
        intro l
        induction l with
        | nil => rfl
        | cons a l ih =>
          rw [List.foldl_cons, runPump_skip prog s a (fun hsel => by
            rw [hall _ hsel]
            simp [Flt.leZero])]
          exact ih
      exact hstep _
    have hsnd := runProgram_snd s prog
    exact Prod.ext hfst hsnd

/-- Witness for C6: a program selecting channel 2 in a state where every
channel is uncalibrated. -/
theorem C6_uncalibrated_skip_witness :
    (∀ i : Fin 4, (channelProgram 2 50).pumps i = true →
      (idleState [] 100).pumpFlowRate i = Flt.fin 0) ∧
    runProgram (idleState [] 100) (channelProgram 2 50)
      = (idleState [] 100,
        { channelProgram 2 50 with lastRun := (idleState [] 100).currentUnixTime }) :=
  ⟨fun _ _ => rfl,
    (C6_uncalibrated_skip (idleState [] 100) (channelProgram 2 50)).2 (fun _ _ => rfl)⟩

theorem ltZero_round32_of_nonneg (q : ℚ) (h : 0 ≤ q) : (Flt.round32 q).ltZero = false := by
  rcases (Flt.roundTo_sign 24 (-149) 128 q).2 h with h1 | ⟨y, hy, h1⟩
  · unfold Flt.round32
    rw [h1]
    rfl
  · unfold Flt.round32
    rw [h1]
    simp [Flt.ltZero, hy]

/-- The tank update never leaves a negative level or a `NaN` behind when the
level before is a finite number. -/
theorem consume_not_negative (L : ℚ) (a : Int) :
    consume (Flt.fin L) a = Flt.pinf ∨ ∃ q : ℚ, 0 ≤ q ∧ consume (Flt.fin L) a = Flt.fin q := by
  unfold consume
  rcases Flt.round32_cases (a : ℚ) with ha | ha | ⟨y, ha⟩
  · refine Or.inr ⟨0, le_refl _, ?_⟩
    simp only [Flt.ofInt, ha, Flt.sub, Flt.ltZero, if_true]
  · refine Or.inl ?_
    simp only [Flt.ofInt, ha, Flt.sub, Flt.ltZero, Bool.false_eq_true, if_false]
  · simp only [Flt.ofInt, ha, Flt.sub]
    rcases Flt.round32_cases (L - y) with h | h | ⟨z, h⟩
    · rw [h]
      exact Or.inl rfl
    · rw [h]
      exact Or.inr ⟨0, le_refl _, rfl⟩
    · rw [h]
      by_cases hz : z < 0
      · simp only [Flt.ltZero, hz, decide_True, if_true]
        exact Or.inr ⟨0, le_refl _, rfl⟩
      · simp only [Flt.ltZero, hz, decide_False, Bool.false_eq_true, if_false]
        exact Or.inr ⟨z, not_lt.mp hz, rfl⟩

/-- An amount of at most `2 ^ 24` that exceeds the level empties the tank. -/
theorem consume_above_level (L : ℚ) (a : Int) (ha : |a| ≤ 16777216) (hlt : L < a) :
    consume (Flt.fin L) a = Flt.fin 0 := by
  unfold consume
  rw [Flt.ofInt_exact a ha]
  simp only [Flt.sub]
  have hneg : L - (a : ℚ) ≤ 0 := by linarith
  rcases (Flt.roundTo_sign 24 (-149) 128 (L - a)).1 hneg with h | ⟨y, hy, h⟩
  · unfold Flt.round32
    rw [h]
    rfl
  · unfold Flt.round32
    rw [h]
    by_cases hz : y < 0
    · simp [Flt.ltZero, hz]
    · have : y = 0 := le_antisymm hy (not_lt.mp hz)
      simp [Flt.ltZero, this]

/-- In the range where the subtraction is exact (a binary32 level of at most
`2 ^ 24` and a whole amount of at most `2 ^ 24`), the tank update is
`max(0, L - amount)`, again a binary32 value. -/
theorem consume_exact (L : ℚ) (a : Int) (hrep : Flt.Rep32 L)
    (hL : L ≤ 16777216) (ha0 : 0 ≤ a) (ha : a ≤ 16777216) :
    consume (Flt.fin L) a = Flt.fin (max 0 (L - a)) ∧ Flt.Rep32 (max 0 (L - a)) := by
  have habs : |a| ≤ 16777216 := by rw [abs_of_nonneg ha0]; exact ha
  by_cases hle : (a : ℚ) ≤ L
  · have hr := Flt.Rep32_sub_int L a hrep hL ha0 hle
    have hnn : 0 ≤ L - (a : ℚ) := by linarith
    have ha0q : (0 : ℚ) ≤ (a : ℚ) := by exact_mod_cast ha0
    have hov : |L - (a : ℚ)| < (2 : ℚ) ^ (128 : Int) := by
      rw [abs_of_nonneg hnn]
      have h1 : L - (a : ℚ) ≤ 16777216 := by linarith
      have h2 : (16777216 : ℚ) < 2 ^ (128 : Int) := by norm_num
      linarith
    rw [max_eq_right hnn]
    refine ⟨?_, hr⟩
    unfold consume
    rw [Flt.ofInt_exact a habs]
    simp only [Flt.sub]
    rw [Flt.round32_rep _ hr hov]
    simp [Flt.ltZero, not_lt.mpr hnn]
  · have hlt : L < a := not_le.mp hle
    rw [max_eq_left (by linarith)]
    exact ⟨consume_above_level L a habs hlt, Flt.Rep32_zero⟩

theorem max_zero_step (L a : ℚ) (k : Nat) (ha : 0 ≤ a) :
    max 0 (max 0 (L - a * k) - a) = max 0 (L - a * ((k + 1 : Nat) : ℚ)) := by
  push_cast
  rcases le_total (L - a * k) 0 with h | h
  · rw [max_eq_left h, max_eq_left (by linarith), max_eq_left (by linarith)]
  · rw [max_eq_right h]
    congr 1
    ring

theorem gtZero_not_leZero (x : Flt) (h : x.gtZero = true) : x.leZero = false := by
  cases x with
  | fin q =>
    simp only [Flt.gtZero, decide_eq_true_eq] at h
    simp [Flt.leZero, h]
  | pinf => rfl
  | ninf => simp [Flt.gtZero] at h
  | nan => simp [Flt.gtZero] at h

theorem runPump_tank (prog : Program) (t : State) (j : Int)
    (hcal : prog.pumps (chan j) = true → (t.pumpFlowRate (chan j)).gtZero = true) :
    (runPump prog t j).currentTankLevel =
      if prog.pumps (chan j) = true then consume t.currentTankLevel prog.amount
      else t.currentTankLevel := by
  unfold runPump
  by_cases hs : prog.pumps (chan j) = true
  · rw [if_pos hs, if_pos hs, gtZero_not_leZero _ (hcal hs)]
    simp only [Bool.false_eq_true, if_false]
    exact (startPumpTimed_frame _ _ _).2.2.2.2.1
  · rw [if_neg hs, if_neg hs]

theorem foldl_runPump_tank (prog : Program) (L : ℚ) (ha : 0 ≤ prog.amount)
    (ha2 : prog.amount ≤ 16777216) (hL : L ≤ 16777216)
    (l : List Int) (t : State) (k : Nat)
    (hcal : ∀ i, prog.pumps i = true → (t.pumpFlowRate i).gtZero = true)
    (hrep : Flt.Rep32 (max 0 (L - prog.amount * k)))
    (ht : t.currentTankLevel = Flt.fin (max 0 (L - prog.amount * k))) :
    (l.foldl (runPump prog) t).currentTankLevel =
      Flt.fin (max 0 (L - prog.amount *
        ((k + (l.filter (fun j => prog.pumps (chan j))).length : Nat) : ℚ))) := by
  induction l generalizing t k with
  | nil => simpa using ht
  | cons a l ih =>
    have haq : (0 : ℚ) ≤ (prog.amount : ℚ) := by exact_mod_cast ha
    have hrate := (runPump_frame prog t a).2.2.1
    have htank := runPump_tank prog t a (fun hs => hcal _ hs)
    have hbound : max 0 (L - (prog.amount : ℚ) * k) ≤ 16777216 := by
      apply max_le (by norm_num)
      have : (0 : ℚ) ≤ (prog.amount : ℚ) * k := mul_nonneg haq (Nat.cast_nonneg k)
      linarith
    obtain ⟨hc, hr⟩ := consume_exact _ prog.amount hrep hbound ha ha2
    rw [max_zero_step L prog.amount k haq] at hc hr
    rw [List.foldl_cons]
    by_cases hs : prog.pumps (chan a) = true
    · rw [if_pos hs, ht, hc] at htank
      rw [ih (runPump prog t a) (k + 1) (by rw [hrate]; exact hcal) hr htank]
      have e : ∀ n : Nat, k + 1 + n = k + (n + 1) := fun n => by omega
      simp only [List.filter_cons, hs, if_true, List.length_cons, e]
    · rw [if_neg hs, ht] at htank
      rw [ih (runPump prog t a) k (by rw [hrate]; exact hcal) hrep htank]
      simp only [List.filter_cons, hs]
      rfl

theorem foldl_runPump_tank_fixed (prog : Program) (v : Flt)
    (hfix : consume v prog.amount = v) (l : List Int) (t : State)
    (hcal : ∀ i, prog.pumps i = true → (t.pumpFlowRate i).gtZero = true)
    (ht : t.currentTankLevel = v) :
    (l.foldl (runPump prog) t).currentTankLevel = v := by
  induction l generalizing t with
  | nil => exact ht
  | cons a l ih =>
    have hrate := (runPump_frame prog t a).2.2.1
    have htank := runPump_tank prog t a (fun hs => hcal _ hs)
    rw [List.foldl_cons]
    apply ih (runPump prog t a) (by rw [hrate]; exact hcal)
    rw [htank, ht, hfix]
    simp

theorem selectedCount_eq (prog : Program) :
    selectedCount prog
      = (([0, 1, 2, 3] : List Int).filter (fun j => prog.pumps (chan j))).length := by
  unfold selectedCount
  have h : List.finRange 4 = [0, 1, 2, 3] := rfl
  rw [h]
  simp only [List.filter_cons, List.filter_nil, chan0, chan1, chan2, chan3]
  split_ifs <;> rfl

/-- C7 (as amended). Multi-channel depletion: when `runProgram` runs a program
with `0 < amountMl = a <= 2^24` whose `n` selected channels are all calibrated
(flow rate greater than 0) from a tank level `L` that is a binary32 value with
`0 <= L <= 2^24`, the tank level afterwards is `max(0, L - a*n)`: in this
range every `float` subtraction is exact, the amount is consumed once per
selected channel, and the per-channel clamping equals one clamp of the
total. -/
theorem C7_multi_channel_depletion (s : State) (prog : Program) (L : ℚ)
    (hL : s.currentTankLevel = Flt.fin L) (hrep : Flt.Rep32 L) (hL0 : 0 ≤ L)
    (hL1 : L ≤ 16777216) (ha : 0 < prog.amount) (ha1 : prog.amount ≤ 16777216)
    (hcal : ∀ i : Fin 4, prog.pumps i = true → (s.pumpFlowRate i).gtZero = true) :
    (runProgram s prog).1.currentTankLevel
      = Flt.fin (max 0 (L - (prog.amount : ℚ) * (selectedCount prog : ℚ))) := by
  have h := foldl_runPump_tank prog L (le_of_lt ha) ha1 hL1 [0, 1, 2, 3] s 0 hcal
    (by simpa [max_eq_right hL0] using hrep)
    (by rw [hL]; simp [max_eq_right hL0])
  rw [selectedCount_eq]
  unfold runProgram
  simpa using h

/-- Witness for C7: 100 ml on the calibrated channels 0 and 1 from a tank of
150 ml. -/
theorem C7_multi_channel_depletion_witness :
    (runProgram (calibratedState 150) (twoChannelProgram 100)).1.currentTankLevel
      = Flt.fin (max 0 (150 - (((twoChannelProgram 100).amount : Int) : ℚ)
          * (selectedCount (twoChannelProgram 100) : ℚ))) :=
  C7_multi_channel_depletion (calibratedState 150) (twoChannelProgram 100) 150 rfl
    (by
      have h := Flt.Rep32_int 150 (by norm_num)
      simpa using h)
    (by norm_num) (by norm_num) (by decide) (by decide)
    (fun _ _ => by simp [calibratedState, Flt.gtZero])

theorem round32_tie_33554431 : Flt.round32 33554431 = Flt.fin 33554432 := by
  unfold Flt.round32
  have h := Flt.roundTo_eval 24 (-149) 128 33554431 24 16777216 (by norm_num)
    (by norm_num [abs_of_pos]) (by norm_num [abs_of_pos])
    (by
      have e : (33554431 : ℚ) / 2 ^ (max ((24 : Int) - (((24 : Nat) : Int) - 1)) (-149))
          = ((16777215 : Int) : ℚ) + 1 / 2 := by norm_num
      rw [e, Flt.roundHalfEven_tie_odd _ (by norm_num)]
      norm_num)
    (by norm_num [abs_of_pos])
  rw [h]
  norm_num

theorem round32_tie_19999999 : Flt.round32 19999999 = Flt.fin 20000000 := by
  unfold Flt.round32
  have h := Flt.roundTo_eval 24 (-149) 128 19999999 24 10000000 (by norm_num)
    (by norm_num [abs_of_pos]) (by norm_num [abs_of_pos])
    (by
      have e : (19999999 : ℚ) / 2 ^ (max ((24 : Int) - (((24 : Nat) : Int) - 1)) (-149))
          = ((9999999 : Int) : ℚ) + 1 / 2 := by norm_num
      rw [e, Flt.roundHalfEven_tie_odd _ (by norm_num)]
      norm_num)
    (by norm_num [abs_of_pos])
  rw [h]
  norm_num

theorem consume_33554432 : consume (Flt.fin 33554432) 1 = Flt.fin 33554432 := by
  unfold consume
  rw [Flt.ofInt_exact 1 (by norm_num)]
  simp only [Flt.sub]
  have e : (33554432 : ℚ) - ((1 : Int) : ℚ) = 33554431 := by norm_num
  rw [e, round32_tie_33554431]
  simp [Flt.ltZero]

/-- C7 as stated fails outside the exact range of `float`: from a tank level
of `2^25 = 33554432` ml a program of 1 ml on the two calibrated channels 0 and
1 leaves the level at 33554432, because `33554432 - 1` rounds back to
33554432 in binary32; the claim says `33554432 - 1*2 = 33554430`. -/
theorem C7_multi_channel_depletion_counterexample :
    (calibratedState 33554432).currentTankLevel = Flt.fin 33554432 ∧
    (twoChannelProgram 1).amount = 1 ∧ selectedCount (twoChannelProgram 1) = 2 ∧
    (∀ i : Fin 4, ((calibratedState 33554432).pumpFlowRate i).gtZero = true) ∧
    (runProgram (calibratedState 33554432) (twoChannelProgram 1)).1.currentTankLevel
      = Flt.fin 33554432 ∧
    (33554432 : ℚ) ≠ max 0 (33554432 - (1 : ℚ) * 2) := by
  refine ⟨rfl, rfl, by decide, fun _ => by simp [calibratedState, Flt.gtZero], ?_, by norm_num⟩
  unfold runProgram
  exact foldl_runPump_tank_fixed (twoChannelProgram 1) (Flt.fin 33554432) consume_33554432 _
    (calibratedState 33554432) (fun _ _ => by simp [calibratedState, Flt.gtZero]) rfl

/-- C8 (as amended). Tank clamp. The tank update of `runProgram` yields
`max(0, L - amount)` exactly when the level `L` is a binary32 value with
`0 <= L <= 2^24` and `0 <= amount <= 2^24` (outside this range the
difference is rounded to binary32 first); for every finite level `L` and every
amount of magnitude at most `2^24`, `amount > L` gives exactly 0; from a
finite level the result is never negative and never `NaN` (a non-negative
number or `+inf`). `/update_tank` with a number `ml` yields `max(0, ml)`, so
`-5` yields 0; `-inf` yields 0 and `+inf` is kept; `NaN` is stored as `NaN`,
and a `NaN` level stays `NaN` under the tank update. -/
theorem C8_tank_clamp :
    (∀ (L : ℚ) (amount : Int), Flt.Rep32 L → 0 ≤ L → L ≤ 16777216 → 0 ≤ amount →
      amount ≤ 16777216 → consume (Flt.fin L) amount = Flt.fin (max 0 (L - amount))) ∧
    (∀ (L : ℚ) (amount : Int), |amount| ≤ 16777216 → L < amount →
      consume (Flt.fin L) amount = Flt.fin 0) ∧
    (∀ (L : ℚ) (amount : Int),
      consume (Flt.fin L) amount = Flt.pinf ∨
        ∃ q : ℚ, 0 ≤ q ∧ consume (Flt.fin L) amount = Flt.fin q) ∧
    (∀ (s : State) (ml : ℚ),
      (updateTank s (Flt.fin ml)).currentTankLevel = Flt.fin (max 0 ml)) ∧
    (∀ s : State, (updateTank s (Flt.fin (-5))).currentTankLevel = Flt.fin 0) ∧
    (∀ s : State, (updateTank s Flt.ninf).currentTankLevel = Flt.fin 0 ∧
      (updateTank s Flt.pinf).currentTankLevel = Flt.pinf ∧
      (updateTank s Flt.nan).currentTankLevel = Flt.nan) ∧
    (∀ amount : Int, consume Flt.nan amount = Flt.nan) := by
  have hset : ∀ (s : State) (ml : ℚ),
      (updateTank s (Flt.fin ml)).currentTankLevel = Flt.fin (max 0 ml) := by
    intro s ml
    unfold updateTank
    by_cases h : ml < 0
    · simp [Flt.ltZero, h, max_eq_left (le_of_lt h)]
    · simp [Flt.ltZero, h, max_eq_right (not_lt.mp h)]
  refine ⟨fun L a hr _ h1 ha0 ha1 => (consume_exact L a hr h1 ha0 ha1).1,
    consume_above_level, consume_not_negative, hset, fun s => ?_,
    fun s => ⟨rfl, rfl, rfl⟩, fun a => ?_⟩
  · rw [hset, max_eq_left (by norm_num)]
  · unfold consume
    rcases Flt.round32_cases (a : ℚ) with h | h | ⟨y, h⟩ <;> simp [Flt.ofInt, h, Flt.sub, Flt.ltZero]

/-- C8 as stated fails at two inputs. `/update_tank` with `NaN` (which
`toFloat` returns for the text `nan`) stores `NaN`, which is neither
`max(0, ml)` as a number nor non-negative. And from the level 20000000 the
consumption of 1 ml leaves 20000000, not `max(0, 20000000 - 1)`, because the
difference is rounded to binary32. -/
theorem C8_tank_clamp_counterexample :
    (updateTank (idleState [] 0) Flt.nan).currentTankLevel = Flt.nan ∧
    (∀ q : ℚ, (updateTank (idleState [] 0) Flt.nan).currentTankLevel ≠ Flt.fin q) ∧
    consume (Flt.fin 20000000) 1 = Flt.fin 20000000 ∧
    (20000000 : ℚ) ≠ max 0 (20000000 - ((1 : Int) : ℚ)) := by
  refine ⟨rfl, ?_, ?_, by norm_num⟩
  · intro q h
    change Flt.nan = Flt.fin q at h
    exact Flt.noConfusion h
  unfold consume
  rw [Flt.ofInt_exact 1 (by norm_num)]
  simp only [Flt.sub]
  have e : (20000000 : ℚ) - ((1 : Int) : ℚ) = 19999999 := by norm_num
  rw [e, round32_tie_19999999]
  simp [Flt.ltZero]

/-! ## Calibration: claims C9 and C10 -/

theorem u32sub_elapsed (t0 e : Nat) (ht0 : t0 < 4294967296) (he : e < 4294967296) :
    u32sub ((t0 + e) % 4294967296) t0 = e := by
  unfold u32sub
  omega

theorem stopCalibration_rate (s1 : State) (p : Fin 4) (nowMs : Nat)
    (hrun : s1.calibrationRunning p = true) :
    (stopCalibration s1 ((p.val : Nat) : Int) nowMs).2 = 200 ∧
    (stopCalibration s1 ((p.val : Nat) : Int) nowMs).1.pumpFlowRate p =
      Flt.divDouble (Flt.fin 100)
        (Flt.divDouble (Flt.ofInt ((u32sub nowMs (s1.calibrationStartTime p) : Nat) : Int))
          (Flt.fin 1000)) ∧
    (stopCalibration s1 ((p.val : Nat) : Int) nowMs).1.currentTankLevel = s1.currentTankLevel ∧
    (stopCalibration s1 ((p.val : Nat) : Int) nowMs).1.pumpStatus p = false := by
  have hp : ¬ (((p.val : Nat) : Int) < 0 ∨ ((p.val : Nat) : Int) > 3) := by
    have := p.isLt
    omega
  unfold stopCalibration updatePumpFlowRate
  simp only [hp, if_false, chan_val, hrun, Bool.not_true, Bool.false_eq_true,
    Function.update_same, and_self]

theorem round32_near_of (c x x2 : ℚ) (h : Flt.Near c x x2) (hc : c ≤ 2)
    (hlo : (2 : ℚ) ^ (-125 : Int) ≤ x) (hhi : x ≤ (2 : ℚ) ^ (126 : Int)) :
    ∃ y : ℚ, Flt.round32 x2 = Flt.fin y ∧ Flt.Near (c * (16777216 / 16777215)) x y := by
  obtain ⟨h1, h2⟩ := h.half_le hc
  have e1 : (2 : ℚ) ^ (-126 : Int) = (2 : ℚ) ^ (-125 : Int) / 2 := by
    rw [show (-126 : Int) = -125 - 1 from rfl, zpow_sub₀ (by norm_num)]
    simp
  have e2 : (2 : ℚ) ^ (127 : Int) = 2 * (2 : ℚ) ^ (126 : Int) := by
    rw [show (127 : Int) = 1 + 126 from rfl, zpow_add₀ (by norm_num)]
    simp
  have hA : (2 : ℚ) ^ (-126 : Int) ≤ x2 := by
    rw [e1]
    exact le_trans (div_le_div_of_nonneg_right hlo (by norm_num)) h1
  have hB : x2 ≤ (2 : ℚ) ^ (127 : Int) := by
    rw [e2]
    exact le_trans h2 (mul_le_mul_of_nonneg_left hhi (by norm_num))
  obtain ⟨y, hy, hn⟩ := Flt.round32_near x2 h.2.1 hA hB
  exact ⟨y, hy, h.trans hn⟩

theorem round64_near_of (c x x2 : ℚ) (h : Flt.Near c x x2) (hc : c ≤ 2)
    (hlo : (2 : ℚ) ^ (-125 : Int) ≤ x) (hhi : x ≤ (2 : ℚ) ^ (126 : Int)) :
    ∃ y : ℚ, Flt.round64 x2 = Flt.fin y ∧
      Flt.Near (c * (9007199254740992 / 9007199254740991)) x y := by
  obtain ⟨h1, h2⟩ := h.half_le hc
  have e1 : (2 : ℚ) ^ (-1022 : Int) ≤ (2 : ℚ) ^ (-125 : Int) / 2 := by
    rw [le_div_iff₀ (by norm_num)]
    have : (2 : ℚ) ^ (-1022 : Int) * 2 = (2 : ℚ) ^ (-1021 : Int) := by
      rw [show (-1021 : Int) = -1022 + 1 from rfl, zpow_add₀ (by norm_num)]
      simp
    rw [this]
    exact zpow_le_zpow_right₀ (by norm_num) (by norm_num)
  have e2 : 2 * (2 : ℚ) ^ (126 : Int) ≤ (2 : ℚ) ^ (1023 : Int) := by
    have : 2 * (2 : ℚ) ^ (126 : Int) = (2 : ℚ) ^ (127 : Int) := by
      rw [show (127 : Int) = 1 + 126 from rfl, zpow_add₀ (by norm_num)]
      simp
    rw [this]
    exact zpow_le_zpow_right₀ (by norm_num) (by norm_num)
  have hA : (2 : ℚ) ^ (-1022 : Int) ≤ x2 :=
    le_trans e1 (le_trans (div_le_div_of_nonneg_right hlo (by norm_num)) h1)
  have hB : x2 ≤ (2 : ℚ) ^ (1023 : Int) :=
    le_trans (le_trans h2 (mul_le_mul_of_nonneg_left hhi (by norm_num))) e2
  obtain ⟨y, hy, hn⟩ := Flt.round64_near x2 h.2.1 hA hB
  exact ⟨y, hy, h.trans hn⟩

/-- The stored flow rate after `e` elapsed milliseconds: a binary32 number
within the relative distance `2^-22` of `100 / (e/1000)`. -/
theorem calibration_rate_near (e : Nat) (he0 : 0 < e) (he : e < 4294967296) :
    ∃ r : ℚ,
      Flt.divDouble (Flt.fin 100)
        (Flt.divDouble (Flt.ofInt ((e : Nat) : Int)) (Flt.fin 1000)) = Flt.fin r ∧
      Flt.Near (4194305 / 4194304) (100 / ((e : ℚ) / 1000)) r := by
  have he1 : (1 : ℚ) ≤ (e : ℚ) := by exact_mod_cast he0
  have he2 : (e : ℚ) ≤ 4294967296 := by exact_mod_cast (le_of_lt he)
  have hepos : (0 : ℚ) < (e : ℚ) := by linarith
  have hE1 : (1 : ℚ) / 1000 ≤ (e : ℚ) / 1000 := by
    apply div_le_div_of_nonneg_right he1 (by norm_num)
  have hE2 : (e : ℚ) / 1000 ≤ 4294967296 / 1000 := by
    apply div_le_div_of_nonneg_right he2 (by norm_num)
  have hEpos : (0 : ℚ) < (e : ℚ) / 1000 := by positivity
  have hR1 : (100 : ℚ) / (4294967296 / 1000) ≤ 100 / ((e : ℚ) / 1000) :=
    div_le_div_of_nonneg_left (by norm_num) hEpos hE2
  have hR2 : (100 : ℚ) / ((e : ℚ) / 1000) ≤ 100 / (1 / 1000) :=
    div_le_div_of_nonneg_left (by norm_num) (by norm_num) hE1
  obtain ⟨y1, hy1, n1⟩ := round32_near_of 1 (e : ℚ) (e : ℚ) (Flt.Near.refl _ hepos)
    (by norm_num) (le_trans (by norm_num) he1) (le_trans he2 (by norm_num))
  obtain ⟨y2, hy2, n2⟩ := round64_near_of _ ((e : ℚ) / 1000) (y1 / 1000)
    (n1.div_const 1000 (by norm_num)) (by norm_num) (le_trans (by norm_num) hE1)
    (le_trans hE2 (by norm_num))
  obtain ⟨y3, hy3, n3⟩ := round32_near_of _ ((e : ℚ) / 1000) y2 n2 (by norm_num)
    (le_trans (by norm_num) hE1) (le_trans hE2 (by norm_num))
  obtain ⟨y4, hy4, n4⟩ := round64_near_of _ (100 / ((e : ℚ) / 1000)) (100 / y3)
    (n3.const_div 100 (by norm_num)) (by norm_num) (le_trans (by norm_num) hR1)
    (le_trans hR2 (by norm_num))
  obtain ⟨y5, hy5, n5⟩ := round32_near_of _ (100 / ((e : ℚ) / 1000)) y4 n4 (by norm_num)
    (le_trans (by norm_num) hR1) (le_trans hR2 (by norm_num))
  have hy3ne : y3 ≠ 0 := ne_of_gt n3.2.1
  refine ⟨y5, ?_, n5.mono (by norm_num)⟩
  have h1 : Flt.ofInt ((e : Nat) : Int) = Flt.fin y1 := by
    unfold Flt.ofInt
    rw [← hy1]
    simp
  rw [h1]
  simp only [Flt.divDouble, Flt.narrow, hy2, hy3, hy3ne, hy4, hy5, if_false,
    show (1000 : ℚ) ≠ 0 by norm_num]

/-- The run time computed from a stored flow rate `r` close to `R`: a binary32
number close to `a / R`. -/
theorem duration_near (a : Int) (c R r : ℚ) (ha0 : 0 < a) (ha : a < 2147483648)
    (h : Flt.Near c R r) (hc : c ≤ 3 / 2) (hR1 : (1 : ℚ) / 100000 ≤ R) (hR2 : R ≤ 100000) :
    ∃ d : ℚ, Flt.div (Flt.ofInt a) (Flt.fin r) = Flt.fin d ∧
      Flt.Near (16777216 / 16777215 * c * (16777216 / 16777215)) ((a : ℚ) / R) d := by
  have ha1 : (1 : ℚ) ≤ (a : ℚ) := by exact_mod_cast ha0
  have ha2 : (a : ℚ) ≤ 2147483648 := by exact_mod_cast (le_of_lt ha)
  have hapos : (0 : ℚ) < (a : ℚ) := by linarith
  have hRpos : (0 : ℚ) < R := h.1
  have hcpos := h.factor_pos
  have hq1 : (1 : ℚ) / 100000 ≤ (a : ℚ) / R := by
    rw [le_div_iff₀ hRpos]
    linarith
  have hq2 : (a : ℚ) / R ≤ 2147483648 * 100000 := by
    rw [div_le_iff₀ hRpos]
    nlinarith
  obtain ⟨a1, hy1, n1⟩ := round32_near_of 1 (a : ℚ) (a : ℚ) (Flt.Near.refl _ hapos)
    (by norm_num) (le_trans (by norm_num) ha1) (le_trans ha2 (by norm_num))
  have hc2 : 1 * (16777216 / 16777215) * c ≤ 2 := by nlinarith
  obtain ⟨d, hd, n2⟩ := round32_near_of _ ((a : ℚ) / R) (a1 / r) (n1.div h) hc2
    (le_trans (by norm_num) hq1) (le_trans hq2 (by norm_num))
  have hrne : r ≠ 0 := ne_of_gt h.2.1
  refine ⟨d, ?_, n2.mono (by simp)⟩
  have h1 : Flt.ofInt a = Flt.fin a1 := hy1
  rw [h1]
  simp only [Flt.div, hrne, if_false, hd]

/-- A `double` division whose exact quotient is a binary32 number rounds
nowhere. -/
theorem divDouble_exact (a b : ℚ) (m e : Int) (hb : b ≠ 0) (hq : a / b = (m : ℚ) * 2 ^ e)
    (hm : |m| < 2 ^ 24) (he : -149 ≤ e) (hov : |(m : ℚ) * 2 ^ e| < (2 : ℚ) ^ (128 : Int)) :
    Flt.divDouble (Flt.fin a) (Flt.fin b) = Flt.fin (a / b) := by
  have h64 : Flt.round64 ((m : ℚ) * 2 ^ e) = Flt.fin ((m : ℚ) * 2 ^ e) :=
    Flt.roundTo_exact 53 (-1074) 1024 m e (lt_trans hm (by norm_num)) (by omega)
      (lt_trans hov (zpow_lt_zpow_right₀ (by norm_num) (by norm_num)))
  have h32 : Flt.round32 ((m : ℚ) * 2 ^ e) = Flt.fin ((m : ℚ) * 2 ^ e) :=
    Flt.roundTo_exact 24 (-149) 128 m e hm he hov
  simp only [Flt.divDouble, hb, if_false, hq, h64, Flt.narrow, h32]

theorem calibration_sixteen_seconds :
    Flt.divDouble (Flt.fin 100)
      (Flt.divDouble (Flt.ofInt ((16000 : Nat) : Int)) (Flt.fin 1000)) = Flt.fin (25 / 4) := by
  have h0 : Flt.ofInt ((16000 : Nat) : Int) = Flt.fin 16000 := by
    have h := Flt.ofInt_exact 16000 (by norm_num)
    simpa using h
  rw [h0, divDouble_exact 16000 1000 16 0 (by norm_num) (by norm_num) (by norm_num)
    (by norm_num) (by norm_num [abs_of_pos])]
  rw [show (16000 : ℚ) / 1000 = 16 by norm_num,
    divDouble_exact 100 16 25 (-2) (by norm_num) (by norm_num) (by norm_num) (by norm_num)
      (by norm_num [abs_of_pos])]
  norm_num

theorem calibration_twenty_seconds :
    Flt.divDouble (Flt.fin 100)
      (Flt.divDouble (Flt.ofInt ((20000 : Nat) : Int)) (Flt.fin 1000)) = Flt.fin 5 ∧
    Flt.div (Flt.ofInt 50) (Flt.fin 5) = Flt.fin 10 := by
  have h1 : Flt.ofInt ((20000 : Nat) : Int) = Flt.fin 20000 := by
    have h := Flt.ofInt_exact 20000 (by norm_num)
    simpa using h
  have h2 : Flt.round64 20 = Flt.fin 20 := by
    have h := Flt.round64_int 20 (by norm_num)
    simpa using h
  have h3 : Flt.round32 20 = Flt.fin 20 := by
    have h := Flt.round32_int 20 (by norm_num)
    simpa using h
  have h4 : Flt.round64 5 = Flt.fin 5 := by
    have h := Flt.round64_int 5 (by norm_num)
    simpa using h
  have h5 : Flt.round32 5 = Flt.fin 5 := by
    have h := Flt.round32_int 5 (by norm_num)
    simpa using h
  have h6 : Flt.ofInt 50 = Flt.fin 50 := by
    have h := Flt.ofInt_exact 50 (by norm_num)
    simpa using h
  have h7 : Flt.round32 10 = Flt.fin 10 := by
    have h := Flt.round32_int 10 (by norm_num)
    simpa using h
  constructor
  · rw [h1]
    have e1 : (20000 : ℚ) / 1000 = 20 := by norm_num
    have e2 : (100 : ℚ) / 20 = 5 := by norm_num
    simp only [Flt.divDouble, Flt.narrow, show (1000 : ℚ) ≠ 0 by norm_num, if_false, e1, h2, h3,
      show (20 : ℚ) ≠ 0 by norm_num, e2, h4, h5]
  · rw [h6]
    have e3 : (50 : ℚ) / 5 = 10 := by norm_num
    simp only [Flt.div, show (5 : ℚ) ≠ 0 by norm_num, if_false, e3, h7]

/-- C9 (as amended). Calibration round trip: a calibration of channel `p`
begun at the millisecond reading `t0` and ended `e` milliseconds later
(`0 < e < 2^32`, the range of the 32-bit `millis()` counter, which may wrap in
between) ends with status 200 and stores a flow rate `r` that equals
`100 / (e/1000)` ml/s up to the rounding of the `float` and `double`
operations, a relative error of at most `2^-22`; a program with
`amountMl = a`, `0 < a < 2^31`, that later runs on that channel computes a
`durationSeconds` that equals `a*(e/1000)/100` up to a relative error of at
most `2^-21`. For `e = 20 s` the rate is exactly 5.0 ml/s and `amountMl = 50`
then gives exactly 10.0. The calibration may be interleaved with anything
that leaves the channel calibrating since `t0`. -/
theorem C9_calibration_round_trip (s : State) (p : Fin 4) (t0 e : Nat)
    (ht0 : t0 < 4294967296) (he0 : 0 < e) (he : e < 4294967296) :
    ((startCalibration s ((p.val : Nat) : Int) t0).1.calibrationRunning p = true ∧
      (startCalibration s ((p.val : Nat) : Int) t0).1.calibrationStartTime p = t0) ∧
    (∀ s1 : State, s1.calibrationRunning p = true → s1.calibrationStartTime p = t0 →
      (stopCalibration s1 ((p.val : Nat) : Int) ((t0 + e) % 4294967296)).2 = 200 ∧
      ∃ r : ℚ,
        (stopCalibration s1 ((p.val : Nat) : Int) ((t0 + e) % 4294967296)).1.pumpFlowRate p
          = Flt.fin r ∧
        |r - 100 / ((e : ℚ) / 1000)| ≤ 100 / ((e : ℚ) / 1000) / 4194304 ∧
        (e = 20000 → r = 5) ∧
        ∀ (s3 : State) (prog : Program),
          s3.pumpFlowRate p = Flt.fin r → 0 < prog.amount → prog.amount < 2147483648 →
          ∃ d : ℚ, durationSeconds s3 prog ((p.val : Nat) : Int) = Flt.fin d ∧
            |d - (prog.amount : ℚ) * ((e : ℚ) / 1000) / 100|
              ≤ (prog.amount : ℚ) * ((e : ℚ) / 1000) / 100 / 2097152 ∧
            (e = 20000 → prog.amount = 50 → d = 10)) := by
  have hp : ¬ (((p.val : Nat) : Int) < 0 ∨ ((p.val : Nat) : Int) > 3) := by
    have := p.isLt
    omega
  have he1 : (1 : ℚ) ≤ (e : ℚ) := by exact_mod_cast he0
  have he2 : (e : ℚ) ≤ 4294967296 := by exact_mod_cast (le_of_lt he)
  have hEpos : (0 : ℚ) < (e : ℚ) / 1000 := by positivity
  have hR1 : (1 : ℚ) / 100000 ≤ 100 / ((e : ℚ) / 1000) := by
    rw [le_div_iff₀ hEpos]
    linarith
  have hR2 : (100 : ℚ) / ((e : ℚ) / 1000) ≤ 100000 := by
    rw [div_le_iff₀ hEpos]
    linarith
  constructor
  · unfold startCalibration
    simp only [hp, if_false, chan_val, Function.update_same, and_self]
  · intro s1 hrun hstart
    obtain ⟨hstatus, hrate, -, -⟩ := stopCalibration_rate s1 p ((t0 + e) % 4294967296) hrun
    rw [hstart, u32sub_elapsed t0 e ht0 he] at hrate
    obtain ⟨r, hr, hn⟩ := calibration_rate_near e he0 he
    refine ⟨hstatus, r, by rw [hrate, hr], ?_, ?_, ?_⟩
    · have h := hn.abs_sub_le
      have e1 : (4194305 / 4194304 - 1 : ℚ) * (100 / ((e : ℚ) / 1000))
          = 100 / ((e : ℚ) / 1000) / 4194304 := by ring
      rw [e1] at h
      exact h
    · intro h20
      subst h20
      rw [calibration_twenty_seconds.1] at hr
      exact (Flt.fin.inj hr).symm
    · intro s3 prog h3 ha0 ha
      obtain ⟨d, hd, hdn⟩ := duration_near prog.amount _ _ r ha0 ha hn (by norm_num) hR1 hR2
      have hdn2 := (hdn.mono (show (16777216 / 16777215 * (4194305 / 4194304)
        * (16777216 / 16777215) : ℚ) ≤ 2097153 / 2097152 by norm_num)).abs_sub_le
      have e2 : (prog.amount : ℚ) / (100 / ((e : ℚ) / 1000))
          = (prog.amount : ℚ) * ((e : ℚ) / 1000) / 100 := by
        rw [div_div_eq_mul_div]
      have hdur : durationSeconds s3 prog ((p.val : Nat) : Int) = Flt.fin d := by
        unfold durationSeconds
        rw [chan_val, h3, hd]
      refine ⟨d, hdur, ?_, ?_⟩
      · rw [e2] at hdn2
        have e3 : (2097153 / 2097152 - 1 : ℚ) * ((prog.amount : ℚ) * ((e : ℚ) / 1000) / 100)
            = (prog.amount : ℚ) * ((e : ℚ) / 1000) / 100 / 2097152 := by ring
        rw [e3] at hdn2
        exact hdn2
      · intro h20 h50
        subst h20
        rw [calibration_twenty_seconds.1] at hr
        have hr5 : r = 5 := (Flt.fin.inj hr).symm
        rw [h50, hr5, calibration_twenty_seconds.2] at hd
        exact (Flt.fin.inj hd).symm

/-- Witness for C9: a calibration of channel 0 that lasts 20 s yields 5 ml/s,
and a program of 50 ml then computes a run time of 10 s. -/
theorem C9_calibration_round_trip_witness :
    (stopCalibration (startCalibration (idleState [] 100) 0 7000).1 0 27000).2 = 200 ∧
    (stopCalibration (startCalibration (idleState [] 100) 0 7000).1 0 27000).1.pumpFlowRate 0
      = Flt.fin 5 ∧
    durationSeconds (stopCalibration (startCalibration (idleState [] 100) 0 7000).1 0 27000).1
      (channelProgram 0 50) 0 = Flt.fin 10 := by
  have h := C9_calibration_round_trip (idleState [] 100) 0 7000 20000 (by norm_num)
    (by norm_num) (by norm_num)
  obtain ⟨hs, r, hr, -, h20, hd⟩ :=
    h.2 (startCalibration (idleState [] 100) 0 7000).1 h.1.1 h.1.2
  have hr5 : r = 5 := h20 rfl
  obtain ⟨d, hd1, -, hd2⟩ :=
    hd (stopCalibration (startCalibration (idleState [] 100) 0 7000).1 0 27000).1
      (channelProgram 0 50) hr (by decide) (by decide)
  have hd10 : d = 10 := hd2 rfl rfl
  rw [hr5] at hr
  rw [hd10] at hd1
  exact ⟨hs, hr, hd1⟩

theorem round64_third : Flt.round64 (100 / 3) = Flt.fin (4691249611844267 / 140737488355328) := by
  unfold Flt.round64
  have h := Flt.roundTo_eval 53 (-1074) 1024 (100 / 3) 5 4691249611844267 (by norm_num)
    (by norm_num [abs_of_pos]) (by norm_num [abs_of_pos])
    (by
      apply Flt.roundHalfEven_of_lt
      · norm_num
      · norm_num)
    (by
      rw [abs_of_pos (by norm_num)]
      have e1 : (2 : ℚ) ^ (max ((5 : Int) - (((53 : Nat) : Int) - 1)) (-1074))
          = 1 / 140737488355328 := by norm_num
      rw [e1]
      calc ((4691249611844267 : Int) : ℚ) * (1 / 140737488355328) ≤ (2 : ℚ) ^ (6 : Int) := by
            norm_num
        _ < (2 : ℚ) ^ (1024 : Int) := zpow_lt_zpow_right₀ (by norm_num) (by norm_num))
  rw [h]
  norm_num

theorem round32_third :
    Flt.round32 (4691249611844267 / 140737488355328) = Flt.fin (8738133 / 262144) := by
  unfold Flt.round32
  have h := Flt.roundTo_eval 24 (-149) 128 (4691249611844267 / 140737488355328) 5 8738133
    (by norm_num) (by norm_num [abs_of_pos]) (by norm_num [abs_of_pos])
    (by
      apply Flt.roundHalfEven_of_lt
      · norm_num
      · norm_num)
    (by norm_num [abs_of_pos])
  rw [h]
  norm_num

/-- C9 as stated fails for an elapsed time of 3 s: the stored flow rate is the
binary32 number `8738133 / 2^18 = 33.33333206...`, not `100 / 3`. -/
theorem C9_calibration_round_trip_counterexample :
    (stopCalibration (startCalibration (idleState [] 100) 0 7000).1 0 10000).2 = 200 ∧
    (stopCalibration (startCalibration (idleState [] 100) 0 7000).1 0 10000).1.pumpFlowRate 0
      = Flt.fin (8738133 / 262144) ∧
    (8738133 / 262144 : ℚ) ≠ 100 / ((3000 : ℚ) / 1000) := by
  have hr := stopCalibration_rate (startCalibration (idleState [] 100) 0 7000).1 0 10000 rfl
  refine ⟨hr.1, ?_, by norm_num⟩
  have h1 : Flt.ofInt ((3000 : Nat) : Int) = Flt.fin 3000 := by
    have h := Flt.ofInt_exact 3000 (by norm_num)
    simpa using h
  have h2 : Flt.round64 3 = Flt.fin 3 := by
    have h := Flt.round64_int 3 (by norm_num)
    simpa using h
  have h3 : Flt.round32 3 = Flt.fin 3 := by
    have h := Flt.round32_int 3 (by norm_num)
    simpa using h
  have hd : u32sub 10000 ((startCalibration (idleState [] 100) 0 7000).1.calibrationStartTime 0)
      = 3000 := by
    have hs : (startCalibration (idleState [] 100) 0 7000).1.calibrationStartTime 0 = 7000 := by
      simp [startCalibration, chan]
    rw [hs]
    rfl
  have h := hr.2.1
  rw [hd, h1] at h
  have e1 : (3000 : ℚ) / 1000 = 3 := by norm_num
  simp only [Flt.divDouble, Flt.narrow, show (1000 : ℚ) ≠ 0 by norm_num, if_false, e1, h2, h3,
    show (3 : ℚ) ≠ 0 by norm_num, round64_third, round32_third] at h
  exact h

theorem runPump_infinite (prog : Program) (t : State) (j : Int)
    (hsel : prog.pumps (chan j) = true) (hrate : t.pumpFlowRate (chan j) = Flt.pinf)
    (ha : |prog.amount| ≤ 16777216) :
    runPump prog t j
      = { t with currentTankLevel := consume t.currentTankLevel prog.amount } := by
  unfold runPump durationSeconds startPumpTimed
  rw [Flt.ofInt_exact prog.amount ha]
  simp [hsel, hrate, Flt.leZero, Flt.div]

/-- C10 fails on the code. Channel 0 has the flow rate 5 ml/s and is
calibrating since the reading 5000; `/stop_calibration` at the same reading
(zero elapsed time) answers 200 and stores `+inf` as the flow rate. A 50 ml
program on that channel then takes 50 ml from the tank and leaves the pump
off. -/
theorem C10_degenerate_calibration_stores_infinity :
    calibratingState.pumpFlowRate 0 = Flt.fin 5 ∧
    calibratingState.calibrationRunning 0 = true ∧
    calibratingState.calibrationStartTime 0 = 5000 ∧
    (stopCalibration calibratingState 0 5000).2 = 200 ∧
    (stopCalibration calibratingState 0 5000).1.pumpFlowRate 0 = Flt.pinf ∧
    (runProgram (stopCalibration calibratingState 0 5000).1
      (channelProgram 0 50)).1.currentTankLevel = Flt.fin 950 ∧
    (runProgram (stopCalibration calibratingState 0 5000).1
      (channelProgram 0 50)).1.pumpStatus 0 = false := by
  have hr := stopCalibration_rate calibratingState 0 5000 rfl
  have hrate : (stopCalibration calibratingState 0 5000).1.pumpFlowRate 0 = Flt.pinf := by
    have h := hr.2.1
    have hd : u32sub 5000 (calibratingState.calibrationStartTime 0) = 0 := by
      have hs : calibratingState.calibrationStartTime 0 = 5000 := by simp [calibratingState]
      rw [hs]
      rfl
    have h0 : Flt.ofInt ((0 : Nat) : Int) = Flt.fin 0 := by
      have h := Flt.ofInt_exact 0 (by norm_num)
      simpa using h
    have h1 : Flt.round64 0 = Flt.fin 0 := by
      have h := Flt.round64_int 0 (by norm_num)
      simpa using h
    have h2 : Flt.round32 0 = Flt.fin 0 := by
      have h := Flt.round32_int 0 (by norm_num)
      simpa using h
    rw [hd, h0] at h
    simp only [Flt.divDouble, Flt.narrow, show (1000 : ℚ) ≠ 0 by norm_num, if_false,
      zero_div, h1, h2, if_true, show (100 : ℚ) ≠ 0 by norm_num,
      show (0 : ℚ) < 100 by norm_num] at h
    exact h
  have htank : (stopCalibration calibratingState 0 5000).1.currentTankLevel = Flt.fin 1000 :=
    hr.2.2.1
  have hoff : (stopCalibration calibratingState 0 5000).1.pumpStatus 0 = false := hr.2.2.2
  have hrun : (runProgram (stopCalibration calibratingState 0 5000).1 (channelProgram 0 50)).1
      = { (stopCalibration calibratingState 0 5000).1 with
          currentTankLevel :=
            consume (stopCalibration calibratingState 0 5000).1.currentTankLevel 50 } := by
    unfold runProgram
    simp only [List.foldl_cons, List.foldl_nil]
    rw [runPump_infinite (channelProgram 0 50) _ 0 rfl hrate (by decide)]
    rw [runPump_skip _ _ 1 (fun h => by cases h), runPump_skip _ _ 2 (fun h => by cases h),
      runPump_skip _ _ 3 (fun h => by cases h)]
    rfl
  refine ⟨?_, ?_, ?_, hr.1, hrate, ?_, ?_⟩
  · simp [calibratingState]
  · simp [calibratingState]
  · simp [calibratingState]
  · rw [hrun]
    show consume (stopCalibration calibratingState 0 5000).1.currentTankLevel 50 = Flt.fin 950
    rw [htank]
    have h := (consume_exact 1000 50 (by
      have h := Flt.Rep32_int 1000 (by norm_num)
      simpa using h) (by norm_num) (by norm_num) (by norm_num)).1
    rw [h]
    norm_num
  · rw [hrun]
    exact hoff

/-! ## Tank forecast: claims C11 and C12 -/

theorem usageStep_first (p : Program) (hact : p.active = true) (n : Int)
    (hn : wrap32 (countDays p.days * p.amount) = n) (hb : |n| ≤ 16777216) :
    usageStep (Flt.fin 0) p = Flt.fin (n : ℚ) := by
  unfold usageStep
  rw [hact, hn, Flt.ofInt_exact n hb]
  simp only [Bool.not_true, Bool.false_eq_true, if_false, Flt.add, zero_add]
  exact Flt.round32_int n hb

theorem truncTimeT_mul_whole (n : Int) (h0 : 0 ≤ n) (hb : n * 604800 ≤ 16777216) :
    Flt.truncTimeT (Flt.mul (Flt.mul (Flt.mul (Flt.fin (n : ℚ)) (Flt.ofInt 7)) (Flt.ofInt 24))
      (Flt.ofInt 3600)) = n * 604800 := by
  have r : ∀ m : Int, 0 ≤ m → m ≤ 16777216 → Flt.round32 (m : ℚ) = Flt.fin (m : ℚ) :=
    fun m h1 h2 => Flt.round32_int m (by rw [abs_of_nonneg h1]; exact h2)
  have o : ∀ m : Int, 0 ≤ m → m ≤ 16777216 → Flt.ofInt m = Flt.fin (m : ℚ) :=
    fun m h1 h2 => Flt.ofInt_exact m (by rw [abs_of_nonneg h1]; exact h2)
  rw [o 7 (by norm_num) (by norm_num), o 24 (by norm_num) (by norm_num),
    o 3600 (by norm_num) (by norm_num)]
  have e1 : (n : ℚ) * ((7 : Int) : ℚ) = ((n * 7 : Int) : ℚ) := by push_cast; ring
  have e2 : ((n * 7 : Int) : ℚ) * ((24 : Int) : ℚ) = ((n * 168 : Int) : ℚ) := by push_cast; ring
  have e3 : ((n * 168 : Int) : ℚ) * ((3600 : Int) : ℚ) = ((n * 604800 : Int) : ℚ) := by
    push_cast; ring
  simp only [Flt.mul]
  rw [e1, r (n * 7) (by omega) (by omega)]
  simp only [e2]
  rw [r (n * 168) (by omega) (by omega)]
  simp only [e3]
  rw [r (n * 604800) (by omega) (by omega)]
  have h3 : (0 : ℚ) ≤ ((n * 604800 : Int) : ℚ) := by exact_mod_cast (by omega : 0 ≤ n * 604800)
  simp only [Flt.truncTimeT, h3, if_true, Int.floor_intCast]

/-- The forecast when the number of weeks `L / W` is a small whole number: no
operation rounds. -/
theorem tankEmptyAt_whole (now : Int) (L W : ℚ) (n : Int) (hW : 0 < W)
    (hn : L / W = (n : ℚ)) (h0 : 0 ≤ n) (hb : n * 604800 ≤ 16777216) :
    tankEmptyAt now (Flt.fin L) (Flt.fin W) = some (now + n * 604800) := by
  have hW0 : W ≠ 0 := ne_of_gt hW
  have hr : Flt.round32 (n : ℚ) = Flt.fin (n : ℚ) :=
    Flt.round32_int n (by rw [abs_of_nonneg h0]; omega)
  simp only [tankEmptyAt, Flt.leZero, decide_eq_true_eq, not_le.mpr hW, if_false, Flt.div, hW0,
    hn, hr, Bool.false_eq_true]
  rw [truncTimeT_mul_whole n h0 hb]

/-- C11 fails on the code for an empty weekday string. The normal case agrees
with the claim: one active program on `Mo,Mi,Fr` with 100 ml, next to an
inactive one, gives a weekly consumption of 300. But `countDays("")` is 1, not
0: an active program with an empty weekday string and 100 ml, which matches no
weekday, contributes 100 to the weekly consumption, and with a tank of 700 ml
a forecast of `now + 7 weeks` is reported. -/
theorem C11_empty_weekdays_counted_as_one :
    usagePerWeek [weekProgram (joinDays [['M', 'o'], ['M', 'i'], ['F', 'r']]) 100 true,
      weekProgram ['S', 'a'] 40 false] = Flt.fin 300 ∧
    countDays [] = 1 ∧
    usagePerWeek [weekProgram [] 100 true] = Flt.fin 100 ∧
    (∀ d ∈ dayCodes, isDayInList (weekProgram [] 100 true).days d = false) ∧
    calculateTankEmptyDate (tankState 700 [weekProgram [] 100 true] 0) = some 4233600 := by
  have h1 : countDays (joinDays [['M', 'o'], ['M', 'i'], ['F', 'r']]) = 3 := by decide
  have h2 : countDays [] = 1 := by decide
  have hu : usagePerWeek [weekProgram [] 100 true] = Flt.fin 100 := by
    have h := usageStep_first (weekProgram [] 100 true) rfl 100
      (by
        show wrap32 (countDays [] * 100) = 100
        rw [h2]
        decide)
      (by norm_num)
    simp only [usagePerWeek, List.foldl_cons, List.foldl_nil, h]
    norm_num
  refine ⟨?_, h2, hu, by decide, ?_⟩
  · have h := usageStep_first (weekProgram (joinDays [['M', 'o'], ['M', 'i'], ['F', 'r']]) 100 true)
      rfl 300
      (by
        show wrap32 (countDays (joinDays [['M', 'o'], ['M', 'i'], ['F', 'r']]) * 100) = 300
        rw [h1]
        decide)
      (by norm_num)
    simp only [usagePerWeek, List.foldl_cons, List.foldl_nil, h]
    simp only [usageStep, weekProgram, Bool.not_false, if_true]
    norm_num
  · unfold calculateTankEmptyDate
    rw [show (tankState 700 [weekProgram [] 100 true] 0).programs = [weekProgram [] 100 true]
      from rfl, hu]
    rw [show (tankState 700 [weekProgram [] 100 true] 0).currentTankLevel = Flt.fin 700 from rfl,
      show (tankState 700 [weekProgram [] 100 true] 0).currentUnixTime = 0 from rfl,
      tankEmptyAt_whole 0 700 100 7 (by norm_num) (by norm_num) (by norm_num) (by norm_num)]
    norm_num

theorem startPumpTimed_lastUpdateMillis (s : State) (i : Int) (d : Flt) :
    (startPumpTimed s i d).lastUpdateMillis = s.lastUpdateMillis := by
  unfold startPumpTimed
  split <;> rfl

theorem runPump_lastUpdateMillis (prog : Program) (s : State) (i : Int) :
    (runPump prog s i).lastUpdateMillis = s.lastUpdateMillis := by
  unfold runPump
  split
  · split
    · rfl
    · exact startPumpTimed_lastUpdateMillis _ _ _
  · rfl

theorem fireStep_lastUpdateMillis (st : State) (kp : Nat × Program) :
    (fireStep st kp).lastUpdateMillis = st.lastUpdateMillis := by
  unfold fireStep runProgram
  exact foldl_preserve (fun t => t.lastUpdateMillis) _
    (fun t i => runPump_lastUpdateMillis kp.2 t i) _ _

theorem foldl_fireStep_lastUpdateMillis (l : List (Nat × Program)) (st : State) :
    (l.foldl fireStep st).lastUpdateMillis = st.lastUpdateMillis := by
  induction l generalizing st with
  | nil => rfl
  | cons a l ih => rw [List.foldl_cons, ih, fireStep_lastUpdateMillis]

theorem programCheck_lastUpdateMillis (s : State) :
    (programCheck s).lastUpdateMillis = s.lastUpdateMillis := by
  by_cases h : Int.tdiv s.currentUnixTime 60 = s.lastProgramCheck
  · rw [programCheck_skip s h]
  · rw [programCheck_eq s h]
    exact foldl_fireStep_lastUpdateMillis _ _

theorem deadlineStep_lastUpdateMillis (s : State) (j : Int) :
    (deadlineStep s j).lastUpdateMillis = s.lastUpdateMillis := by
  unfold deadlineStep stopPump
  split_ifs <;> rfl

theorem deadlineCheck_clock (s : State) :
    (deadlineCheck s).currentUnixTime = s.currentUnixTime ∧
    (deadlineCheck s).lastUpdateMillis = s.lastUpdateMillis :=
  ⟨foldl_preserve (fun t => t.currentUnixTime) _ deadlineStep_currentUnixTime _ s,
    foldl_preserve (fun t => t.lastUpdateMillis) _ deadlineStep_lastUpdateMillis _ s⟩

theorem loop_clock (s : State) (nowMs : Nat) :
    (loop s nowMs).currentUnixTime =
      s.currentUnixTime + (if 1000 ≤ u32sub nowMs s.lastUpdateMillis then 1 else 0) ∧
    (loop s nowMs).lastUpdateMillis =
      (if 1000 ≤ u32sub nowMs s.lastUpdateMillis then u32add s.lastUpdateMillis 1000
        else s.lastUpdateMillis) := by
  unfold loop
  rw [programCheck_currentUnixTime, programCheck_lastUpdateMillis,
    (deadlineCheck_clock _).1, (deadlineCheck_clock _).2]
  unfold clockStep
  split_ifs with h
  · exact ⟨rfl, rfl⟩
  · exact ⟨(add_zero _).symm, rfl⟩

/-- C13. Clock step bound: for every state and every `millis()` reading, the
clock step of one tick, and the whole tick, add 1 to the virtual timestamp
exactly when at least 1000 ms have accumulated since `lastUpdateMillis`
(32-bit difference) and add 0 otherwise, however much real time elapsed; the
timestamp never decreases. -/
theorem C13_clock_step_bound (s : State) (nowMs : Nat) :
    (clockStep s nowMs).currentUnixTime =
      s.currentUnixTime + (if 1000 ≤ u32sub nowMs s.lastUpdateMillis then 1 else 0) ∧
    (loop s nowMs).currentUnixTime = (clockStep s nowMs).currentUnixTime ∧
    s.currentUnixTime ≤ (loop s nowMs).currentUnixTime ∧
    (loop s nowMs).currentUnixTime ≤ s.currentUnixTime + 1 := by
  have hl := (loop_clock s nowMs).1
  have hc : (clockStep s nowMs).currentUnixTime =
      s.currentUnixTime + (if 1000 ≤ u32sub nowMs s.lastUpdateMillis then 1 else 0) := by
    unfold clockStep
    split_ifs with h
    · rfl
    · exact (add_zero _).symm
  refine ⟨hc, by rw [hl, hc], ?_, ?_⟩
  · rw [hl]
    split_ifs <;> omega
  · rw [hl]
    split_ifs <;> omega

theorem ticks_cons (s : State) (r : Nat) (rest : List Nat) :
    ticks s (r :: rest) = ticks (loop s r) rest := rfl

theorem ticks_catch_up (later : List Nat) (s : State) (t : Nat)
    (hl : ∀ r ∈ later, t ≤ r ∧ r < 4294967296)
    (hs : s.lastUpdateMillis + 1000 * later.length ≤ t) :
    (ticks s later).currentUnixTime = s.currentUnixTime + (later.length : Int) ∧
    (ticks s later).lastUpdateMillis = s.lastUpdateMillis + 1000 * later.length := by
  induction later generalizing s with
  | nil => simp [ticks]
  | cons r rest ih =>
    have hr := hl r (List.mem_cons_self _ _)
    rw [List.length_cons] at hs
    have hge : 1000 ≤ u32sub r s.lastUpdateMillis := by
      unfold u32sub
      omega
    obtain ⟨hc, hm⟩ := loop_clock s r
    rw [if_pos hge] at hc hm
    have hm2 : (loop s r).lastUpdateMillis = s.lastUpdateMillis + 1000 := by
      rw [hm]
      unfold u32add
      omega
    obtain ⟨ic, im⟩ := ih (loop s r) (fun x hx => hl x (List.mem_cons_of_mem _ hx))
      (by rw [hm2]; omega)
    rw [ticks_cons, ic, im, hc, hm2, List.length_cons]
    constructor
    · push_cast
      ring
    · ring

theorem ticks_not_ahead (later : List Nat) (s : State) (t : Nat)
    (h0 : s.lastUpdateMillis ≤ t) (hch : List.Chain (fun a b => a ≤ b) t later)
    (hb : ∀ r ∈ later, r < 4294967296) :
    ∃ n : Nat, (ticks s later).currentUnixTime = s.currentUnixTime + (n : Int) ∧
      (ticks s later).lastUpdateMillis = s.lastUpdateMillis + 1000 * n ∧
      (ticks s later).lastUpdateMillis ≤ later.getLastD t := by
  induction later generalizing s t with
  | nil => exact ⟨0, by simp [ticks], by simp [ticks], by simpa [ticks] using h0⟩
  | cons r rest ih =>
    rw [List.chain_cons] at hch
    have hr := hb r (List.mem_cons_self _ _)
    obtain ⟨hc, hm⟩ := loop_clock s r
    by_cases hge : 1000 ≤ u32sub r s.lastUpdateMillis
    · rw [if_pos hge] at hc hm
      have hdiff : s.lastUpdateMillis + 1000 ≤ r := by
        have h := hge
        have h1 := hch.1
        unfold u32sub at h
        omega
      have hm2 : (loop s r).lastUpdateMillis = s.lastUpdateMillis + 1000 := by
        rw [hm]
        unfold u32add
        omega
      have hle : (loop s r).lastUpdateMillis ≤ r := by
        rw [hm2]
        exact hdiff
      obtain ⟨n, ic, im, il⟩ := ih (loop s r) r hle hch.2
        (fun x hx => hb x (List.mem_cons_of_mem _ hx))
      refine ⟨n + 1, ?_, ?_, ?_⟩
      · rw [ticks_cons, ic, hc]
        push_cast
        ring
      · rw [ticks_cons, im, hm2]
        ring
      · rw [ticks_cons, List.getLastD_cons]
        exact il
    · rw [if_neg hge] at hc hm
      have hle : (loop s r).lastUpdateMillis ≤ r := by
        rw [hm]
        exact le_trans h0 hch.1
      obtain ⟨n, ic, im, il⟩ := ih (loop s r) r hle hch.2
        (fun x hx => hb x (List.mem_cons_of_mem _ hx))
      refine ⟨n, ?_, ?_, ?_⟩
      · rw [ticks_cons, ic, hc, add_zero]
      · rw [ticks_cons, im, hm]
      · rw [ticks_cons, List.getLastD_cons]
        exact il

/-- C14 (as amended). A stall is caught up: if one tick observes that `k >= 2`
whole real seconds have elapsed since `lastUpdateMillis`, that tick applies
one second only, and each of the following ticks applies one more of the
missed seconds (`lastUpdateMillis` advances by 1000 per applied second), so
after `k - 1` further ticks all `k` seconds have been applied. In every later
sequence of ticks with non-decreasing readings (no `setNow`, no wrap of the
32-bit counter) the number of seconds added never exceeds the number of whole
real seconds elapsed. -/
theorem C14_stall_is_caught_up (s : State) (t k : Nat) (hk : 2 ≤ k)
    (hstall : s.lastUpdateMillis + 1000 * k ≤ t) (ht : t < 4294967296) :
    (loop s t).currentUnixTime = s.currentUnixTime + 1 ∧
    (∀ later : List Nat, later.length = k - 1 → (∀ r ∈ later, t ≤ r ∧ r < 4294967296) →
      (ticks (loop s t) later).currentUnixTime = s.currentUnixTime + (k : Int)) ∧
    (∀ later : List Nat, List.Chain (fun a b => a ≤ b) t later →
      (∀ r ∈ later, r < 4294967296) →
      (ticks (loop s t) later).currentUnixTime - s.currentUnixTime
        ≤ (((later.getLastD t - s.lastUpdateMillis) / 1000 : Nat) : Int)) := by
  have hfirst := ticks_catch_up [t] s t
    (fun r hr => by rw [List.mem_singleton] at hr; subst hr; exact ⟨le_refl _, ht⟩)
    (by simp only [List.length_singleton]; omega)
  simp only [ticks_cons, List.length_singleton, Nat.cast_one, mul_one] at hfirst
  have hc : (loop s t).currentUnixTime = s.currentUnixTime + 1 := hfirst.1
  have hm : (loop s t).lastUpdateMillis = s.lastUpdateMillis + 1000 := hfirst.2
  refine ⟨hc, ?_, ?_⟩
  · intro later hlen hl
    have h := ticks_catch_up later (loop s t) t hl (by rw [hm, hlen]; omega)
    rw [h.1, hc, hlen]
    have : ((k - 1 : Nat) : Int) = (k : Int) - 1 := by omega
    rw [this]
    ring
  · intro later hch hb
    obtain ⟨n, ic, im, il⟩ := ticks_not_ahead later (loop s t) t (by rw [hm]; omega) hch hb
    rw [ic, hc]
    rw [im, hm] at il
    have h2 : n + 1 ≤ (later.getLastD t - s.lastUpdateMillis) / 1000 := by
      rw [Nat.le_div_iff_mul_le (by norm_num)]
      omega
    have h3 : ((n + 1 : Nat) : Int) ≤
        (((later.getLastD t - s.lastUpdateMillis) / 1000 : Nat) : Int) := by
      exact_mod_cast h2
    push_cast at h3 ⊢
    linarith

/-- Witness for C14: a stall of three seconds observed at the reading 3000,
followed by ticks at 3001 and 3002. -/
theorem C14_stall_is_caught_up_witness :
    (ticks (loop (idleState [] 0) 3000) [3001, 3002]).currentUnixTime
      = (idleState [] 0).currentUnixTime + ((3 : Nat) : Int) :=
  (C14_stall_is_caught_up (idleState [] 0) 3000 3 (by norm_num) (by simp [idleState])
    (by norm_num)).2.1 [3001, 3002] rfl
    (fun r hr => by
      simp only [List.mem_cons, List.mem_singleton, List.not_mem_nil, or_false] at hr
      omega)

/-- C14 as stated fails: from `lastUpdateMillis = 0` and clock 0, a first tick
at the reading 3000 observes three elapsed seconds; after the further ticks at
3001 and 3002 the clock has gained 3 seconds, which is not strictly below the
`3002 / 1000 = 3` whole real seconds elapsed. -/
theorem C14_permanent_lag_counterexample :
    (idleState [] 0).lastUpdateMillis = 0 ∧ (idleState [] 0).currentUnixTime = 0 ∧
    (loop (idleState [] 0) 3000).currentUnixTime = 1 ∧
    (ticks (idleState [] 0) [3000, 3001, 3002]).currentUnixTime = 3 ∧
    ¬ ((ticks (idleState [] 0) [3000, 3001, 3002]).currentUnixTime
        - (idleState [] 0).currentUnixTime < (((3002 - 0) / 1000 : Nat) : Int)) := by
  have h1 := ticks_catch_up [3000] (idleState [] 0) 3000
    (fun r hr => by
      simp only [List.mem_singleton] at hr
      omega)
    (by simp [idleState])
  have h3 := ticks_catch_up [3000, 3001, 3002] (idleState [] 0) 3000
    (fun r hr => by
      simp only [List.mem_cons, List.mem_singleton, List.not_mem_nil, or_false] at hr
      omega)
    (by simp [idleState])
  have e1 : (loop (idleState [] 0) 3000).currentUnixTime = 1 := by
    have := h1.1
    simpa [ticks, idleState] using this
  have e3 : (ticks (idleState [] 0) [3000, 3001, 3002]).currentUnixTime = 3 := by
    have := h3.1
    simpa [idleState] using this
  refine ⟨rfl, rfl, e1, e3, ?_⟩
  rw [e3]
  simp [idleState]

/-- C15. Setting the clock: for every state, timestamp `t` and `millis()`
reading, `setCurrentDateTime` makes the clock equal to `t`, sets
`lastUpdateMillis` to the reading (so a tick less than 1000 ms later adds no
second), and changes nothing else: every `pumpRunEnd`, every channel on-bit,
the program list with every `lastRun`, and the tank level are unchanged. The
function is total. -/
theorem C15_set_clock (s : State) (t : Int) (nowMs : Nat) :
    (setCurrentDateTime s t nowMs).currentUnixTime = t ∧
    (setCurrentDateTime s t nowMs).lastUpdateMillis = nowMs ∧
    (setCurrentDateTime s t nowMs).pumpRunEnd = s.pumpRunEnd ∧
    (setCurrentDateTime s t nowMs).pumpStatus = s.pumpStatus ∧
    (setCurrentDateTime s t nowMs).programs = s.programs ∧
    (setCurrentDateTime s t nowMs).currentTankLevel = s.currentTankLevel ∧
    setCurrentDateTime s t nowMs
      = { s with currentUnixTime := t, lastUpdateMillis := nowMs } ∧
    (∀ later : Nat, nowMs < 4294967296 → nowMs ≤ later → later < nowMs + 1000 →
      (clockStep (setCurrentDateTime s t nowMs) later).currentUnixTime = t) := by
  refine ⟨rfl, rfl, rfl, rfl, rfl, rfl, rfl, ?_⟩
  intro later h1 h2 h3
  have hlt : ¬ (u32sub later nowMs ≥ 1000) := by
    unfold u32sub
    omega
  unfold clockStep
  rw [show (setCurrentDateTime s t nowMs).lastUpdateMillis = nowMs from rfl, if_neg hlt]
  rfl

/-! ## Channel commands: claims C16 to C19 -/

theorem fin_index_valid (i : Fin 4) :
    ¬ (((i.val : Nat) : Int) < 0 ∨ ((i.val : Nat) : Int) > 3) := by
  have := i.isLt
  omega

theorem togglePump_valid (s : State) (i : Fin 4) :
    (togglePump s ((i.val : Nat) : Int)).2 = 200 ∧
    (togglePump s ((i.val : Nat) : Int)).1.pumpStatus i = (!s.pumpStatus i) ∧
    (togglePump s ((i.val : Nat) : Int)).1.calibrationRunning = s.calibrationRunning := by
  have hi := fin_index_valid i
  unfold togglePump togglePumpStatus
  simp only [hi, if_false, chan_val, Function.update_same, and_self]

/-- C16 (as amended). Manual toggle: for every channel `i` in 0..3, calibrating
or not, `/toggle_pump` answers 200 and flips exactly that channel's on-bit
(the pin follows), leaves the other three channels unchanged, and neither
consults nor changes the calibration flags, the deadlines and the flow
rates. -/
theorem C16_manual_toggle (s : State) (i : Fin 4) :
    (togglePump s ((i.val : Nat) : Int)).2 = 200 ∧
    (togglePump s ((i.val : Nat) : Int)).1.pumpStatus i = (!s.pumpStatus i) ∧
    (togglePump s ((i.val : Nat) : Int)).1.pumpPin i = (!s.pumpStatus i) ∧
    (∀ j : Fin 4, j ≠ i →
      (togglePump s ((i.val : Nat) : Int)).1.pumpStatus j = s.pumpStatus j ∧
      (togglePump s ((i.val : Nat) : Int)).1.pumpPin j = s.pumpPin j) ∧
    (togglePump s ((i.val : Nat) : Int)).1.calibrationRunning = s.calibrationRunning ∧
    (togglePump s ((i.val : Nat) : Int)).1.calibrationStartTime = s.calibrationStartTime ∧
    (togglePump s ((i.val : Nat) : Int)).1.pumpRunEnd = s.pumpRunEnd ∧
    (togglePump s ((i.val : Nat) : Int)).1.pumpFlowRate = s.pumpFlowRate := by
  have hi := fin_index_valid i
  unfold togglePump togglePumpStatus
  simp only [hi, if_false, chan_val, Function.update_same, true_and, and_true]
  intro j hj
  exact ⟨Function.update_noteq hj _ _, Function.update_noteq hj _ _⟩

/-- C16 as stated fails for a calibrating channel: channel 0 is on and
calibrating; `/toggle_pump` for it answers 200 and turns the channel off,
while it stays marked calibrating. -/
theorem C16_manual_toggle_counterexample :
    calibratingState.pumpStatus 0 = true ∧ calibratingState.calibrationRunning 0 = true ∧
    (togglePump calibratingState 0).2 = 200 ∧
    (togglePump calibratingState 0).1.pumpStatus 0 = false ∧
    (togglePump calibratingState 0).1.calibrationRunning 0 = true := by
  have h := togglePump_valid calibratingState 0
  have h1 : (togglePump calibratingState 0).1.pumpStatus 0
      = (!calibratingState.pumpStatus 0) := h.2.1
  have h2 : (togglePump calibratingState 0).1.calibrationRunning
      = calibratingState.calibrationRunning := h.2.2
  refine ⟨by simp [calibratingState], by simp [calibratingState], h.1, ?_, ?_⟩
  · rw [h1]
    simp [calibratingState]
  · rw [h2]
    simp [calibratingState]

/-- C17 (as amended). Begin calibration: for every channel `p` in 0..3,
calibrating or not, `/start_calibration` answers 200, records the current
`millis()` reading as the start instant (replacing an earlier one), marks the
channel calibrating and turns the output on (status bit and pin). -/
theorem C17_begin_calibration (s : State) (p : Fin 4) (nowMs : Nat) :
    (startCalibration s ((p.val : Nat) : Int) nowMs).2 = 200 ∧
    (startCalibration s ((p.val : Nat) : Int) nowMs).1.calibrationStartTime p = nowMs ∧
    (startCalibration s ((p.val : Nat) : Int) nowMs).1.calibrationRunning p = true ∧
    (startCalibration s ((p.val : Nat) : Int) nowMs).1.pumpStatus p = true ∧
    (startCalibration s ((p.val : Nat) : Int) nowMs).1.pumpPin p = true := by
  have hp := fin_index_valid p
  unfold startCalibration
  simp only [hp, if_false, chan_val, Function.update_same, and_self]

/-- C17 as stated fails for a channel that is already calibrating: channel 0
is calibrating since the reading 5000; `/start_calibration` at the reading
9000 answers 200 and replaces the start instant by 9000, and the stop at the
reading 25000 stores `100 / 16 = 6.25` ml/s, not the `100 / 20 = 5` ml/s
measured from the first begin. -/
theorem C17_begin_calibration_counterexample :
    calibratingState.calibrationRunning 0 = true ∧
    calibratingState.calibrationStartTime 0 = 5000 ∧
    (startCalibration calibratingState 0 9000).2 = 200 ∧
    (startCalibration calibratingState 0 9000).1.calibrationStartTime 0 = 9000 ∧
    (stopCalibration (startCalibration calibratingState 0 9000).1 0 25000).1.pumpFlowRate 0
      = Flt.fin (25 / 4) ∧
    (stopCalibration calibratingState 0 25000).1.pumpFlowRate 0 = Flt.fin 5 := by
  have hs : (startCalibration calibratingState 0 9000).1.calibrationStartTime 0 = 9000 ∧
      (startCalibration calibratingState 0 9000).1.calibrationRunning 0 = true := by
    simp [startCalibration, chan0]
  have h1 := (stopCalibration_rate (startCalibration calibratingState 0 9000).1 0 25000
    hs.2).2.1
  have h2 := (stopCalibration_rate calibratingState 0 25000 (by simp [calibratingState])).2.1
  refine ⟨by simp [calibratingState], by simp [calibratingState], by simp [startCalibration],
    hs.1, ?_, ?_⟩
  · rw [hs.1, show u32sub 25000 9000 = 16000 from rfl, calibration_sixteen_seconds] at h1
    exact h1
  · have h0 : calibratingState.calibrationStartTime 0 = 5000 := by simp [calibratingState]
    rw [h0, show u32sub 25000 5000 = 20000 from rfl, calibration_twenty_seconds.1] at h2
    exact h2

/-- C18. Index out of range: for every channel index outside 0..3,
`togglePumpStatus`, `startPumpTimed` (with any duration) and `stopPump` return
the state unchanged, and for every program index outside `0..size-1`,
`deleteProgram` and `updateProgramActiveState` return the state unchanged (so
program list, on-bits, deadlines, flow rates, tank level and clock are
unchanged); with a valid index `k`, `deleteProgram` removes exactly the
element at `k`, keeps the order of the others and changes nothing else. -/
theorem C18_index_out_of_range :
    (∀ (s : State) (i : Int), (i < 0 ∨ 3 < i) →
      togglePumpStatus s i = s ∧ (∀ d : Flt, startPumpTimed s i d = s) ∧ stopPump s i = s) ∧
    (∀ (s : State) (idx : Int), (idx < 0 ∨ (s.programs.length : Int) ≤ idx) →
      deleteProgram s idx = s ∧ (∀ b : Bool, updateProgramActiveState s idx b = s)) ∧
    (∀ (s : State) (k : Nat), k < s.programs.length →
      (deleteProgram s (k : Int)).programs = s.programs.take k ++ s.programs.drop (k + 1) ∧
      deleteProgram s (k : Int) = { s with programs := (deleteProgram s (k : Int)).programs }) := by
  refine ⟨fun s i hi => ?_, fun s idx hidx => ?_, fun s k hk => ?_⟩
  · have h1 : i < 0 ∨ i > 3 := by omega
    refine ⟨?_, fun d => ?_, ?_⟩
    · unfold togglePumpStatus
      rw [if_pos h1]
    · unfold startPumpTimed
      rw [if_pos (by omega)]
    · unfold stopPump
      rw [if_pos h1]
  · refine ⟨?_, fun b => ?_⟩
    · unfold deleteProgram
      rw [if_neg (by omega)]
    · unfold updateProgramActiveState
      rw [if_pos (by omega)]
  · have hv : (k : Int) ≥ 0 ∧ (k : Int) < (s.programs.length : Int) := by omega
    unfold deleteProgram
    simp only [hv, and_self, if_true, Int.toNat_ofNat, List.eraseIdx_eq_take_drop_succ]

theorem anyOn_iff (st : Fin 4 → Bool) : anyOn st = true ↔ ∃ j, st j = true := by
  constructor
  · intro h
    simp only [anyOn, Bool.or_eq_true] at h
    rcases h with ((h | h) | h) | h
    · exact ⟨0, h⟩
    · exact ⟨1, h⟩
    · exact ⟨2, h⟩
    · exact ⟨3, h⟩
  · rintro ⟨j, hj⟩
    fin_cases j <;> simp_all [anyOn]

theorem anyOn_update_true (st : Fin 4 → Bool) (i : Fin 4) :
    anyOn (Function.update st i true) = true :=
  (anyOn_iff _).2 ⟨i, Function.update_same _ _ _⟩

theorem anyOn_of_update_false (st : Fin 4 → Bool) (i : Fin 4)
    (h : anyOn (Function.update st i false) = true) : anyOn st = true := by
  obtain ⟨j, hj⟩ := (anyOn_iff _).1 h
  by_cases hji : j = i
  · subst hji
    rw [Function.update_same] at hj
    cases hj
  · rw [Function.update_noteq hji] at hj
    exact (anyOn_iff _).2 ⟨j, hj⟩

theorem togglePumpStatus_indicator (s : State) (i : Int) (h : indicatorOk s) :
    indicatorOk (togglePumpStatus s i) := by
  unfold togglePumpStatus
  split
  · exact h
  · rfl

theorem startPumpTimed_indicator (s : State) (i : Int) (d : Flt) (h : indicatorOk s) :
    indicatorOk (startPumpTimed s i d) := by
  unfold startPumpTimed
  split
  · exact h
  · exact (anyOn_update_true _ _).symm

theorem stopPump_indicator (s : State) (i : Int) (h : indicatorOk s) :
    indicatorOk (stopPump s i) := by
  unfold stopPump
  split
  · exact h
  · unfold indicatorOk at h ⊢
    simp only
    by_cases ha : anyOn (Function.update s.pumpStatus (chan i) false) = true
    · rw [if_pos ha, ha, h]
      exact anyOn_of_update_false _ _ ha
    · rw [if_neg ha]
      rw [Bool.not_eq_true] at ha
      exact ha.symm

theorem deadlineCheck_indicator (s : State) (h : indicatorOk s) :
    indicatorOk (deadlineCheck s) := by
  have hstep : ∀ (t : State) (j : Int), indicatorOk t → indicatorOk (deadlineStep t j) := by
    intro t j ht
    unfold deadlineStep
    split_ifs
    · exact stopPump_indicator t j ht
    · exact ht
    · exact ht
  have hfold : ∀ (l : List Int) (t : State), indicatorOk t →
      indicatorOk (l.foldl deadlineStep t) := by
    intro l
    induction l with
    | nil => exact fun t ht => ht
    | cons a l ih => exact fun t ht => ih _ (hstep t a ht)
  exact hfold _ s h

/-- C19 fails on the code for the calibration handlers. The manual toggle,
the timed start, the stop and the auto-off of the deadline check keep the LED
equal to the OR of the four on-bits. But `/start_calibration` and
`/stop_calibration` never write the LED: from all channels off and LED off,
beginning a calibration of channel 0 turns the channel on and leaves the LED
off; from channel 0 calibrating as the only channel on and LED on, ending the
calibration turns the channel off and leaves the LED on. -/
theorem C19_calibration_skips_indicator :
    (∀ (s : State) (i : Int), indicatorOk s → indicatorOk (togglePumpStatus s i)) ∧
    (∀ (s : State) (i : Int) (d : Flt), indicatorOk s → indicatorOk (startPumpTimed s i d)) ∧
    (∀ (s : State) (i : Int), indicatorOk s → indicatorOk (stopPump s i)) ∧
    (∀ s : State, indicatorOk s → indicatorOk (deadlineCheck s)) ∧
    (indicatorOk (idleState [] 100) ∧
      (startCalibration (idleState [] 100) 0 5000).1.pumpStatus 0 = true ∧
      (startCalibration (idleState [] 100) 0 5000).1.led = false ∧
      ¬ indicatorOk (startCalibration (idleState [] 100) 0 5000).1) ∧
    (indicatorOk calibratingLit ∧
      anyOn (stopCalibration calibratingLit 0 25000).1.pumpStatus = false ∧
      (stopCalibration calibratingLit 0 25000).1.led = true ∧
      ¬ indicatorOk (stopCalibration calibratingLit 0 25000).1) := by
  refine ⟨togglePumpStatus_indicator, startPumpTimed_indicator, stopPump_indicator,
    deadlineCheck_indicator, ?_, ?_⟩
  · have hon : (startCalibration (idleState [] 100) 0 5000).1.pumpStatus 0 = true := by
      simp [startCalibration, chan0]
    have hled : (startCalibration (idleState [] 100) 0 5000).1.led = false := by
      simp [startCalibration, idleState]
    refine ⟨by simp [indicatorOk, idleState, anyOn], hon, hled, ?_⟩
    unfold indicatorOk
    rw [hled, (anyOn_iff _).2 ⟨0, hon⟩]
    simp
  · have hoff : anyOn (stopCalibration calibratingLit 0 25000).1.pumpStatus = false := by
      simp [stopCalibration, updatePumpFlowRate, calibratingLit, calibratingState, idleState,
        chan0, anyOn]
    have hled : (stopCalibration calibratingLit 0 25000).1.led = true := by
      simp [stopCalibration, updatePumpFlowRate, calibratingLit, calibratingState, chan0]
    refine ⟨?_, hoff, hled, ?_⟩
    · simp [indicatorOk, calibratingLit, calibratingState, idleState, anyOn]
    · unfold indicatorOk
      rw [hled, hoff]
      simp

/-! ## Weekday matching: claim C20 -/

/-- C20. Weekday matching is exact membership: for every list `L` (possibly
empty) of the codes So, Mo, Di, Mi, Do, Fr, Sa and every code `d` of those
seven, `isDayInList(join(L), d)` is true if and only if `d` is an element of
`L`; an empty weekday string matches no weekday, so a program with an empty
weekday string satisfies the firing condition at no time and is left
unchanged by every schedule evaluation. -/
theorem C20_weekday_membership (L : List Str) (d : Str)
    (hL : ∀ c ∈ L, c ∈ dayCodes) (hd : d ∈ dayCodes) :
    (isDayInList (joinDays L) d = true ↔ d ∈ L) ∧
    isDayInList [] d = false ∧
    (∀ (now : Int) (prog : Program), prog.days = [] → fires now prog = false) ∧
    (∀ (s : State) (k : Nat) (prog : Program), s.programs[k]? = some prog → prog.days = [] →
      (programCheck s).programs[k]? = some prog) := by
  have hempty : ∀ e : Str, e ∈ dayCodes → isDayInList [] e = false := by
    intro e he
    obtain ⟨x, y, rfl, hx, hy⟩ := dayCodes_two_letters e he
    have h := isDayInList_joinDays x y hx hy [] (fun c hc => by cases hc)
    rw [Bool.eq_false_iff]
    intro ht
    have := h.1 ht
    cases this
  have hfires : ∀ (now : Int) (prog : Program), prog.days = [] → fires now prog = false := by
    intro now prog hp
    unfold fires shouldRun
    rw [hp, hempty _ (dayMap_mem_dayCodes _)]
    simp
  obtain ⟨x, y, rfl, hx, hy⟩ := dayCodes_two_letters d hd
  refine ⟨isDayInList_joinDays x y hx hy L (fun c hc => dayCodes_two_letters c (hL c hc)),
    hempty _ hd, hfires, ?_⟩
  intro s k prog hk hp
  by_cases h : Int.tdiv s.currentUnixTime 60 = s.lastProgramCheck
  · rw [programCheck_skip s h]
    exact hk
  · rw [programCheck_programs s h, List.getElem?_map, hk]
    simp [markRun, hfires _ prog hp]

/-- Witness for C20: the list `Mo,Mi,Fr` contains `Mi` and does not contain
`Di`. -/
theorem C20_weekday_membership_witness :
    (isDayInList (joinDays [['M', 'o'], ['M', 'i'], ['F', 'r']]) ['M', 'i'] = true ↔
      ['M', 'i'] ∈ [['M', 'o'], ['M', 'i'], ['F', 'r']]) ∧
    (isDayInList (joinDays [['M', 'o'], ['M', 'i'], ['F', 'r']]) ['D', 'i'] = true ↔
      ['D', 'i'] ∈ [['M', 'o'], ['M', 'i'], ['F', 'r']]) :=
  ⟨(C20_weekday_membership [['M', 'o'], ['M', 'i'], ['F', 'r']] ['M', 'i']
      (by decide) (by decide)).1,
    (C20_weekday_membership [['M', 'o'], ['M', 'i'], ['F', 'r']] ['D', 'i']
      (by decide) (by decide)).1⟩

end Pumpe
